import Mathlib

/-!
Verification of the financial-data enrichment tool (RNE/DINUM pipeline).

This file gives a shallow embedding, in Lean 4, of the parts of the Python
source that the frozen claims C1-C10 talk about:

- enrichment_hybrid.py : the range index lookup (find_file_for_siren), the
  streaming conversion (extract_key_metrics_only), metric extraction
  (extract_financial_data), batch grouping and processing
  (group_sirens_by_rne_file, process_batch, enrich_batch_parallel);
- build_rne_db.py : amount parsing (_parse_amount), record extraction
  (extract_bilans_from_json), the database build (build_from_cache,
  build_from_ftp, init_db);
- update_rne_db.py : the rebuild-with-backup routine (update_db);
- enrichment_rne_ondemand.py : parse_liasse_value;
- create_rne_index_ranges.py : the offline range-index build;
- enrichment.py : get_finances;
- app.py : the adaptive rate limiter (_on_api_success, _on_api_rate_limited).

Modelling conventions, used throughout:
- Python strings are Lean String; Python string comparison (by code point)
  is modelled by strLt and strLe below, which compare the underlying
  character lists and agree with the Mathlib linear order on String.
- Python dicts keyed by strings are association lists built exclusively with
  dinsert (overwrite on duplicate key, insertion order kept), looked up with
  dget (first match); this matches dict semantics because dinsert keeps keys
  unique.
- JSON objects are modelled as structures with one field per key the code
  reads; a missing key is an Option set to none. JSON values that the code
  only ever treats as strings are Option String; where a function really
  branches on the runtime type, a small JVal type is used.
- Filesystem and network effects are modelled by explicit state passing:
  the shard cache is an association list, the remote FTP server is a
  function from file name to Option content (none = download failure after
  the retry loop), and SQLite tables are lists of rows.
- Concurrency: the worker pool of enrich_batch_parallel is modelled
  sequentially; tasks for distinct shards touch disjoint cache keys and
  disjoint result keys, and the result map is merged under a lock in the
  source, so the sequentialisation is faithful for the stated claims.
- Real time (sleeps, next-allowed timestamps) is not modelled; the rate
  limiter state is reduced to its current delay, modelled over the rational
  numbers (Python floats are idealised as exact arithmetic; the claims are
  order facts about values in the range [0.8, 8] where this is harmless).
-/

/-! ## Python string order

Python compares strings lexicographically by code point. The Mathlib order
on String is exactly that, but its decision procedure (String.ltb) does not
reduce in the kernel, so we define the comparison on the character lists,
which both evaluates by decide and is provably the Mathlib order. -/

/-- Python string comparison a < b (lexicographic on code points). -/
def strLt (a b : String) : Prop := a.data < b.data

instance (a b : String) : Decidable (strLt a b) := by unfold strLt; infer_instance

/-- Python string comparison a <= b. -/
def strLe (a b : String) : Prop := ¬ strLt b a

instance (a b : String) : Decidable (strLe a b) := by unfold strLe; infer_instance

/-! ## Python primitives -/

/-- Python str.zfill(width): left-pad with zeros up to width, keeping a
leading sign character in front of the padding. -/
def pyZfill (s : String) (width : Nat) : String :=
  if width ≤ s.length then s
  else
    let hasSign := s.data.head? = some '-' ∨ s.data.head? = some '+'
    let sign : List Char := if hasSign then s.data.take 1 else []
    let body : List Char := if hasSign then s.data.drop 1 else s.data
    String.mk (sign ++ List.replicate (width - s.length) '0' ++ body)

/-- Python str.strip(): drop leading and trailing whitespace (ASCII
whitespace; the exotic Unicode space classes Python also strips do not
occur in this data). -/
def pyStrip (s : String) : String :=
  String.mk (((s.data.dropWhile Char.isWhitespace).reverse.dropWhile Char.isWhitespace).reverse)

/-- Python str.replace on character lists: replace every non-overlapping
occurrence of pat, scanning left to right. Structural recursion on a fuel
argument so that the definition reduces in the kernel; every step consumes
at least one character, so fuel = length of the text is always enough. -/
def listReplace (pat rep : List Char) : Nat → List Char → List Char
  | 0, s => s
  | _ + 1, [] => []
  | fuel + 1, c :: rest =>
    if (c :: rest).take pat.length = pat ∧ pat ≠ [] then
      rep ++ listReplace pat rep fuel ((c :: rest).drop pat.length)
    else c :: listReplace pat rep fuel rest

/-- Python str.replace. -/
def pyReplace (s pat rep : String) : String :=
  String.mk (listReplace pat.data rep.data s.data.length s.data)

/-- Validates a digit run after its first digit: digits with single
underscores strictly between digits (Python numeric literal grouping);
returns the digits with underscores removed. -/
def pyDigitsRest : List Char → Option (List Char)
  | [] => some []
  | '_' :: c :: cs => if c.isDigit then (pyDigitsRest cs).map (fun ds => c :: ds) else none
  | '_' :: [] => none
  | c :: cs => if c.isDigit then (pyDigitsRest cs).map (fun ds => c :: ds) else none

/-- Validates a nonempty digit run (with Python underscore grouping) and
returns the digits with underscores removed. -/
def pyDigits : List Char → Option (List Char)
  | [] => none
  | c :: cs => if c.isDigit then (pyDigitsRest cs).map (fun ds => c :: ds) else none

/-- Decimal value of a digit list. -/
def digitsVal (ds : List Char) : Nat := ds.foldl (fun a c => a * 10 + (c.toNat - 48)) 0

/-- Python int(str): strip whitespace, optional sign, decimal digits
(underscore grouping allowed); none models a ValueError. Non-ASCII digits
and non-ASCII whitespace are not modelled. -/
def pyToInt (s : String) : Option Int :=
  match (pyStrip s).data with
  | '-' :: rest => (pyDigits rest).map (fun ds => -(digitsVal ds : Int))
  | '+' :: rest => (pyDigits rest).map (fun ds => (digitsVal ds : Int))
  | l => (pyDigits l).map (fun ds => (digitsVal ds : Int))

/-- Helper for pyFloatToInt: absolute value of int(float(...)) for an
unsigned decimal literal, i.e. the integer part of digits[.digits]; none
models a ValueError. -/
def pyFloatCore (l : List Char) : Option Nat :=
  let ip := l.takeWhile (fun c => c ≠ '.')
  let rest := l.dropWhile (fun c => c ≠ '.')
  match rest with
  | [] => (pyDigits ip).map digitsVal
  | _ :: fp =>
    if ip.isEmpty then
      if (pyDigits fp).isSome then some 0 else none
    else if fp.isEmpty then
      (pyDigits ip).map digitsVal
    else if (pyDigits fp).isSome then
      (pyDigits ip).map digitsVal
    else none

/-- Python int(float(str)) for decimal literals: truncates the fractional
part toward zero. Exponents, inf and nan are not modelled (the source only
meets plain decimal strings on this path). -/
def pyFloatToInt (s : String) : Option Int :=
  match (pyStrip s).data with
  | '-' :: rest => (pyFloatCore rest).map (fun n => -(n : Int))
  | '+' :: rest => (pyFloatCore rest).map (fun n => (n : Int))
  | l => (pyFloatCore l).map (fun n => (n : Int))

/-! ## Python dict as association list -/

/-- Lookup in a dict modelled as an association list (first match). -/
def dget {α : Type} (d : List (String × α)) (k : String) : Option α :=
  (d.find? (fun kv => decide (kv.1 = k))).map Prod.snd

/-- Insertion with dict semantics: overwrite the value in place if the key
exists, else append at the end (insertion order). -/
def dinsert {α : Type} (k : String) (v : α) (d : List (String × α)) : List (String × α) :=
  if d.any (fun kv => decide (kv.1 = k)) then
    d.map (fun kv => if kv.1 = k then (k, v) else kv)
  else d ++ [(k, v)]

/-! ## Stable sorts keyed by a string (Python list.sort and sorted) -/

/-- Stable descending insertion for sort(key=..., reverse=True): the new
element (earlier in the original list) passes elements with a strictly
larger key and stops at the first key less than or equal to its own. -/
def insertDescBy {α : Type} (key : α → String) (a : α) : List α → List α
  | [] => [a]
  | b :: bs => if strLt (key a) (key b) then b :: insertDescBy key a bs else a :: b :: bs

/-- Stable descending sort by a string key, as list.sort(key, reverse=True). -/
def sortDescBy {α : Type} (key : α → String) : List α → List α
  | [] => []
  | a :: l => insertDescBy key a (sortDescBy key l)

/-- Stable ascending insertion (Python sorted). -/
def insertAscBy {α : Type} (key : α → String) (a : α) : List α → List α
  | [] => [a]
  | b :: bs => if strLt (key b) (key a) then b :: insertAscBy key a bs else a :: b :: bs

/-- Stable ascending sort by a string key, as Python sorted(key=...). -/
def sortAscBy {α : Type} (key : α → String) : List α → List α
  | [] => []
  | a :: l => insertAscBy key a (sortAscBy key l)

/-! ## enrichment_hybrid.py : data model

A raw RNE record (one element of a shard file). Fields mirror the JSON keys
the source reads; none models a missing key. The nested access paths
bilanSaisi.bilan.identite.dateClotureExercice and
bilanSaisi.bilan.detail.pages are flattened into one field each (a missing
intermediate object behaves exactly like an empty one through the chain of
.get calls in the source). Metric values m1 and m2 are kept as strings;
a non-string JSON value on these paths raises inside the try blocks of the
source and is skipped, which is what none denotes. -/

/-- One liasse line: accounting code with current-year (m1) and
prior-year (m2) raw values. -/
structure Liasse where
  code : Option String
  m1 : Option String
  m2 : Option String
deriving DecidableEq, Repr

/-- One page of liasse lines (key liasses). -/
structure PageH where
  liasses : List Liasse
deriving DecidableEq, Repr

/-- Current-year and prior-year raw values kept by the streaming
conversion for one code. -/
structure MetricPair where
  m1 : Option String
  m2 : Option String
deriving DecidableEq, Repr

/-- One raw record of a shard file, as read by enrichment_hybrid.py.
hasBilanSaisi records whether the key bilanSaisi is present (the cache
migration tests membership of that key); metrics is some iff the key
metrics is present (the format discriminant of extract_financial_data). -/
structure Bilan where
  siren : Option String
  dateCloture : Option String
  dateDepot : Option String
  typeBilan : Option String
  denomination : Option String
  hasBilanSaisi : Bool
  dateClotureExercice : Option String
  pages : List PageH
  metrics : Option (List (String × MetricPair))
deriving DecidableEq, Repr

/-- The six liasse codes of LIASSE_CODES, in the dict order of the source. -/
def LIASSE_CODES_keys : List String := ["FA", "HN", "GC", "BJ", "DL", "HY"]

/-- The streaming conversion of one record by extract_key_metrics_only:
keep only identity fields and the six key metrics gathered from the pages
(later occurrences of a code overwrite earlier ones, as in a dict). The
returned record carries only the keys siren, dateCloture, dateDepot,
typeBilan and metrics. -/
def convStep (acc : List (String × MetricPair)) (l : Liasse) : List (String × MetricPair) :=
  match l.code with
  | some c => if c ∈ LIASSE_CODES_keys then dinsert c ⟨l.m1, l.m2⟩ acc else acc
  | none => acc

def extract_key_metrics_one (b : Bilan) : Bilan :=
  let ms := b.pages.foldl (fun acc page => page.liasses.foldl convStep acc) []
  { siren := b.siren
    dateCloture := b.dateCloture
    dateDepot := b.dateDepot
    typeBilan := b.typeBilan
    denomination := none
    hasBilanSaisi := false
    dateClotureExercice := none
    pages := []
    metrics := some ms }

/-- extract_key_metrics_only over a whole shard (STREAMING_MODE is the
constant true in the source). -/
def extract_key_metrics_only (data : List Bilan) : List Bilan :=
  data.map extract_key_metrics_one

/-- Shared numeric conversion of both branches of extract_financial_data:
skip falsy or whitespace-only values, apply int(), and divide by 100 when
the value exceeds 1000000000 (amount expressed in cents). -/
def parseMetricValue (v : Option String) : Option Int :=
  let s := v.getD ""
  if s = "" ∨ pyStrip s = "" then none
  else
    match pyToInt s with
    | none => none
    | some n => some (if n > 1000000000 then n / 100 else n)

/-- Result schema of extract_financial_data. -/
structure FinancialData where
  date_cloture : String
  date_depot : String
  denomination : String
  chiffre_affaires : Option Int
  resultat_net : Option Int
  resultat_exploitation : Option Int
  total_actif : Option Int
  capitaux_propres : Option Int
  effectif : Option Int
deriving DecidableEq, Repr

/-- extract_financial_data of enrichment_hybrid.py, streaming branch
(record has a metrics key): iterate the metrics dict, parse each m1, then
read the six codes. -/
def streamStep (acc : List (String × Int)) (kv : String × MetricPair) :
    List (String × Int) :=
  match parseMetricValue kv.2.m1 with
  | some n => dinsert kv.1 n acc
  | none => acc

def extractFinancialStreaming (b : Bilan) (ms : List (String × MetricPair)) : FinancialData :=
  let parsed : List (String × Int) := ms.foldl streamStep []
  { date_cloture := b.dateCloture.getD ""
    date_depot := b.dateDepot.getD ""
    denomination := ""
    chiffre_affaires := dget parsed ("FA")
    resultat_net := dget parsed ("HN")
    resultat_exploitation := dget parsed ("GC")
    total_actif := dget parsed ("BJ")
    capitaux_propres := dget parsed ("DL")
    effectif := dget parsed ("HY") }

/-- extract_financial_data of enrichment_hybrid.py, full branch (no
metrics key): walk the pages, keep codes in LIASSE_CODES whose m1 parses,
then read the six codes. -/
def fullStep (acc : List (String × Int)) (l : Liasse) : List (String × Int) :=
  if l.code.getD "" ∈ LIASSE_CODES_keys then
    match parseMetricValue l.m1 with
    | some n => dinsert (l.code.getD "") n acc
    | none => acc
  else acc

def extractFinancialFull (b : Bilan) : FinancialData :=
  let parsed : List (String × Int) := b.pages.foldl (fun acc page =>
    page.liasses.foldl fullStep acc) []
  { date_cloture := b.dateClotureExercice.getD ""
    date_depot := b.dateDepot.getD ""
    denomination := b.denomination.getD ""
    chiffre_affaires := dget parsed ("FA")
    resultat_net := dget parsed ("HN")
    resultat_exploitation := dget parsed ("GC")
    total_actif := dget parsed ("BJ")
    capitaux_propres := dget parsed ("DL")
    effectif := dget parsed ("HY") }

/-- extract_financial_data of enrichment_hybrid.py: dispatch on the
presence of the metrics key. -/
def extract_financial_data (b : Bilan) : FinancialData :=
  match b.metrics with
  | some ms => extractFinancialStreaming b ms
  | none => extractFinancialFull b

/-! ## enrichment_hybrid.py : range index and lookup -/

/-- One entry of the range index file (rne_siren_ranges.json). -/
structure RangeEntry where
  file : String
  siren_min : String
  siren_max : String
  companies : Nat
  bilans : Nat
deriving DecidableEq, Repr

/-- Membership of a siren in the closed range of an entry. -/
def inRange (r : RangeEntry) (s : String) : Prop :=
  strLe r.siren_min s ∧ strLe s r.siren_max

instance (r : RangeEntry) (s : String) : Decidable (inRange r s) := by
  unfold inRange; infer_instance

/-- The while loop of find_file_for_siren. In the source, left and right
are Python ints and the loop exits when right becomes -1; with Nat indices
that exit is the mid = 0 test of the second branch. The bound right <
ranges.length is an invariant of every call the source makes. -/
def findFileLoop (ranges : List RangeEntry) (s : String) :
    Nat → Nat → Nat → Option String
  | 0, _, _ => none
  | fuel + 1, left, right =>
    if left ≤ right ∧ right < ranges.length then
      match ranges[(left + right) / 2]? with
      | none => none
      | some r =>
        if strLe r.siren_min s ∧ strLe s r.siren_max then some r.file
        else if strLt s r.siren_min then
          if (left + right) / 2 = 0 then none
          else findFileLoop ranges s fuel left ((left + right) / 2 - 1)
        else findFileLoop ranges s fuel ((left + right) / 2 + 1) right
    else none

/-- find_file_for_siren of enrichment_hybrid.py: zero-pad the siren to 9
characters and binary-search the ranges. The empty-index guard models the
initial right = len(ranges) - 1 = -1, which skips the Python loop. The
loop is given fuel ranges.length + 1: the live interval shrinks strictly
on every iteration, so this never runs out (the correctness lemmas prove
their statements for every sufficient fuel). -/
def find_file_for_siren (siren : String) (ranges : List RangeEntry) : Option String :=
  if ranges.isEmpty then none
  else findFileLoop ranges (pyZfill siren 9) (ranges.length + 1) 0 (ranges.length - 1)

/-- Modelled from the spec: the linear scan over all entries that claim C2
compares the binary search against (first entry whose closed range contains
the identifier). -/
def find_file_linear (s : String) : List RangeEntry → Option String
  | [] => none
  | r :: rest =>
    if strLe r.siren_min s ∧ strLe s r.siren_max then some r.file
    else find_file_linear s rest

/-! ## enrichment_hybrid.py : cache, download and batch processing -/

/-- The shard cache directory, as an association list from file name to
parsed content. -/
structure Cache where
  entries : List (String × List Bilan)
deriving DecidableEq, Repr

/-- download_json_from_ftp with use_cache=true. The remote parameter is
the FTP server: the content of each file of the ZIP, or none when the
download fails for every retry. On a cache hit with a record still in the
full format (key bilanSaisi present), the content is converted by
extract_key_metrics_only and the cache rewritten (one-time migration).
On a miss, the downloaded shard is converted (STREAMING_MODE) and cached.
Returns the data (none = failure) and the new cache state. -/
def download_json_from_ftp (remote : String → Option (List Bilan)) (cache : Cache)
    (filename : String) : Option (List Bilan) × Cache :=
  match dget cache.entries filename with
  | some data =>
    match data with
    | [] => (some [], cache)
    | first :: _ =>
      if first.hasBilanSaisi then
        let conv := extract_key_metrics_only data
        (some conv, ⟨dinsert filename conv cache.entries⟩)
      else (some data, cache)
  | none =>
    match remote filename with
    | none => (none, cache)
    | some raw =>
      let conv := extract_key_metrics_only raw
      (some conv, ⟨dinsert filename conv cache.entries⟩)

/-- Per-siren outcome built by process_batch (and by the single-siren
entry points). Absent keys are none. -/
structure EnrichResult where
  success : Bool
  siren : Option String
  error : Option String
  denomination : Option String
  nb_bilans : Option Nat
  bilans : Option (List FinancialData)
  source : Option String
deriving DecidableEq, Repr

/-- File number of a shard name, as int(filename.replace(stock_, ).replace(.json, )):
none models the ValueError when the name does not follow the pattern. -/
def shardFileNum (filename : String) : Option Int :=
  pyToInt (pyReplace (pyReplace filename ("stock_") ("")) (".json") (""))

/-- The per-siren result construction of process_batch for one siren found
in the shard data: sort its records by dateCloture descending, truncate to
max_bilans, extract. Returns none for the IndexError the source raises
when max_bilans = 0 leaves the truncation empty while reading
bilans[0]. -/
def processOneSiren (data : List Bilan) (siren : String) (max_bilans : Nat) :
    Option EnrichResult :=
  let padded := pyZfill siren 9
  let bilans := data.filter (fun b => decide (b.siren = some padded))
  match bilans with
  | [] =>
    some { success := false
           siren := some padded
           error := some ("Aucun bilan pour " ++ siren)
           denomination := none
           nb_bilans := none
           bilans := none
           source := none }
  | _ :: _ =>
    let sorted := (sortDescBy (fun b => b.dateCloture.getD "") bilans).take max_bilans
    let history := sorted.map extract_financial_data
    match sorted with
    | [] => none
    | first :: _ =>
      some { success := true
             siren := some padded
             error := none
             denomination := some (first.denomination.getD "")
             nb_bilans := some history.length
             bilans := some history
             source := some ("RNE via FTP INPI") }

/-- The error record of the download-failure branch of process_batch. -/
def downloadErrorResult : EnrichResult :=
  { success := false, siren := none, error := some ("Erreur téléchargement"),
    denomination := none, nb_bilans := none, bilans := none, source := none }

/-- process_batch of enrichment_hybrid.py. LIMITED_SPACE_MODE is the
constant true, so the file number is always parsed and cleanup is
honoured only for file numbers at least 85. A download failure returns
one error record per requested siren and skips the cleanup step. The
result map is keyed by the original (unpadded) siren strings. The first
component none models an exception escaping the task (the int()
ValueError on the file name, or the bilans[0] IndexError), in which case
the cache keeps whatever state the mutations so far left. -/
def process_batch (remote : String → Option (List Bilan)) (cache : Cache)
    (filename : String) (sirens : List String) (max_bilans : Nat) (cleanup : Bool) :
    Option (List (String × EnrichResult)) × Cache :=
  match shardFileNum filename with
  | none => (none, cache)
  | some num =>
    let cleanup := cleanup && decide (85 ≤ num)
    match download_json_from_ftp remote cache filename with
    | (none, cache1) =>
      (some (sirens.foldl (fun acc s => dinsert s downloadErrorResult acc) []), cache1)
    | (some data, cache1) =>
      if data.isEmpty then
        (some (sirens.foldl (fun acc s => dinsert s downloadErrorResult acc) []), cache1)
      else
        match sirens.foldl (fun acc s => acc.bind (fun m =>
          (processOneSiren data s max_bilans).map (fun r => dinsert s r m))) (some []) with
        | none => (none, cache1)
        | some results =>
          let cache2 : Cache :=
            if cleanup then ⟨cache1.entries.filter (fun kv => decide (kv.1 ≠ filename))⟩
            else cache1
          (some results, cache2)

/-- group_sirens_by_rne_file of enrichment_hybrid.py: a dict from shard
file name to the sirens routed to it; sirens with no matching range are
only reported on the console and appear in no group. The ranges parameter
is the loaded index (the index-missing early return is an IO concern kept
out of the model). -/
def groupStep (ranges : List RangeEntry) (grouped : List (String × List String))
    (siren : String) : List (String × List String) :=
  match find_file_for_siren siren ranges with
  | some filename =>
    match dget grouped filename with
    | some existing => dinsert filename (existing ++ [siren]) grouped
    | none => dinsert filename [siren] grouped
  | none => grouped

def group_sirens_by_rne_file (ranges : List RangeEntry) (sirens : List String) :
    List (String × List String) :=
  sirens.foldl (groupStep ranges) []

/-- One iteration of the as_completed merge loop: a task that returned a
result map has it merged into the accumulated map (update); a task that
raised contributes nothing (its exception is caught and logged). -/
def enrichStep (remote : String → Option (List Bilan)) (max_bilans : Nat)
    (st : List (String × EnrichResult) × Cache) (g : String × List String) :
    List (String × EnrichResult) × Cache :=
  match process_batch remote st.2 g.1 g.2 max_bilans true with
  | (some results, cache1) =>
    (results.foldl (fun acc kv => dinsert kv.1 kv.2 acc) st.1, cache1)
  | (none, cache1) => (st.1, cache1)

/-- enrich_batch_parallel of enrichment_hybrid.py: group the sirens by
shard, run process_batch for every group (cleanup=true), and merge the
result maps. The worker pool is sequentialised; distinct tasks have
disjoint result keys, so the merged map does not depend on completion
order. -/
def enrich_batch_parallel (remote : String → Option (List Bilan)) (cache : Cache)
    (ranges : List RangeEntry) (sirens : List String) (max_bilans : Nat) :
    List (String × EnrichResult) × Cache :=
  let grouped := group_sirens_by_rne_file ranges sirens
  if grouped.isEmpty then ([], cache)
  else grouped.foldl (enrichStep remote max_bilans) ([], cache)

/-! ## build_rne_db.py : amount parsing and record extraction -/

/-- A JSON scalar as _parse_amount receives it. JSON numbers are modelled
as integers (the bulk data carries amounts as strings or integers); null
also stands for a missing key, exactly as Python .get returns None for
both. -/
inductive JVal where
  | null : JVal
  | int : Int → JVal
  | str : String → JVal
deriving DecidableEq, Repr

/-- The function named _parse_amount in build_rne_db.py: None and
non-scalars give None; numbers are truncated to int; strings are stripped,
inner spaces and non-breaking spaces removed, the empty string, a dash and
N/A give None, anything else goes through int(float(...)). There is no
cents-threshold division here. -/
def parse_amount : JVal → Option Int
  | JVal.null => none
  | JVal.int n => some n
  | JVal.str s =>
    let v := pyReplace (pyReplace (pyStrip s) (" ") ("")) (" ") ("")
    if v = "" ∨ v = "-" ∨ v = "N/A" then none
    else pyFloatToInt v

/-- Metric entry of the compact cache format as build_rne_db.py reads it:
the m1 and m2 values of one code (null = missing key). -/
structure MetricEntryB where
  m1 : JVal
  m2 : JVal
deriving DecidableEq, Repr

/-- One line of the alternative pages structure; note build_rne_db.py
reads the key lignes here (not liasses). -/
structure Ligne where
  code : Option String
  m1 : JVal
  m2 : JVal
deriving DecidableEq, Repr

/-- One page of the alternative structure (key lignes). -/
structure PageB where
  lignes : List Ligne
deriving DecidableEq, Repr

/-- One input record of extract_bilans_from_json. The dateCloture field
also covers the date_cloture fallback key (likewise dateDepot, typeBilan);
flat models item.get on the twelve flat column names (isSome = the key is
present and not null). Sirens that are JSON numbers are not modelled
(real shard data carries them as strings). -/
structure ItemB where
  siren : Option String
  dateCloture : Option String
  dateDepot : Option String
  typeBilan : Option String
  metrics : List (String × MetricEntryB)
  pages : List PageB
  flat : String → Option JVal

/-- The LIASSE_MAP of build_rne_db.py: code, current-year column,
prior-year column, in dict order. -/
def LIASSE_MAP : List (String × String × String) :=
  [("FA", "chiffre_affaires", "ca_precedent"),
   ("HN", "resultat_net", "rn_precedent"),
   ("GC", "resultat_exploitation", "re_precedent"),
   ("BJ", "total_actif", "ta_precedent"),
   ("DL", "capitaux_propres", "cp_precedent"),
   ("HY", "effectif", "eff_precedent")]

/-- One row of the bilans table, in INSERT_SQL column order. -/
structure Row where
  siren : String
  date_cloture : String
  date_depot : Option String
  type_bilan : Option String
  chiffre_affaires : Option Int
  resultat_net : Option Int
  resultat_exploitation : Option Int
  total_actif : Option Int
  capitaux_propres : Option Int
  effectif : Option Int
  ca_precedent : Option Int
  rn_precedent : Option Int
  re_precedent : Option Int
  ta_precedent : Option Int
  cp_precedent : Option Int
  eff_precedent : Option Int
deriving DecidableEq, Repr

/-- The record filter of extract_bilans_from_json: a truthy siren of
exactly 9 characters (the source checks len(str(siren)), not digits) and a
truthy dateCloture not lexicographically below MIN_DATE = 2019-01-01. -/
def keepsItem (item : ItemB) : Prop :=
  item.siren.getD "" ≠ "" ∧ (item.siren.getD "").length = 9 ∧
  item.dateCloture.getD "" ≠ "" ∧ ¬ strLt (item.dateCloture.getD "") ("2019-01-01")

instance (item : ItemB) : Decidable (keepsItem item) := by
  unfold keepsItem; infer_instance

/-- Step one of the metric extraction: the compact metrics dict, walked in
LIASSE_MAP order; parsed m1 goes to the current-year column, parsed m2 to
the prior-year column. -/
def metricsFromDict (item : ItemB) : List (String × Int) × List (String × Int) :=
  LIASSE_MAP.foldl (fun acc entry =>
    match dget item.metrics entry.1 with
    | none => acc
    | some md =>
      let acc1 := match parse_amount md.m1 with
        | some v => (dinsert entry.2.1 v acc.1, acc.2)
        | none => acc
      match parse_amount md.m2 with
      | some v => (acc1.1, dinsert entry.2.2 v acc1.2)
      | none => acc1) ([], [])

/-- Step two (only when step one produced no current-year metric): the
pages structure under the key lignes, continuing in the accumulator of
step one (whose prior-year dict may already be populated). -/
def metricsFromPages (item : ItemB) (start : List (String × Int) × List (String × Int)) :
    List (String × Int) × List (String × Int) :=
  item.pages.foldl (fun acc page =>
    page.lignes.foldl (fun acc l =>
      match l.code with
      | some c =>
        match LIASSE_MAP.find? (fun e => decide (e.1 = c)) with
        | some entry =>
          let acc1 := match parse_amount l.m1 with
            | some v => (dinsert entry.2.1 v acc.1, acc.2)
            | none => acc
          match parse_amount l.m2 with
          | some v => (acc1.1, dinsert entry.2.2 v acc1.2)
          | none => acc1
        | none => acc
      | none => acc) acc) start

/-- Step three: for columns still missing, take the already-extracted flat
value from the item itself (note the parse result is inserted even when it
is None). -/
def metricsFromFlat (item : ItemB) (start : List (String × Int) × List (String × Int)) :
    List (String × Option Int) × List (String × Option Int) :=
  LIASSE_MAP.foldl (fun acc entry =>
    let acc1 :=
      if (dget acc.1 entry.2.1).isSome then acc
      else match item.flat entry.2.1 with
        | some v => (dinsert entry.2.1 (parse_amount v) acc.1, acc.2)
        | none => acc
    if (dget acc1.2 entry.2.2).isSome then acc1
    else match item.flat entry.2.2 with
      | some v => (acc1.1, dinsert entry.2.2 (parse_amount v) acc1.2)
      | none => acc1)
    (start.1.map (fun kv => (kv.1, some kv.2)), start.2.map (fun kv => (kv.1, some kv.2)))

/-- The row built for one kept item. -/
def rowOfItem (item : ItemB) : Row :=
  let base := metricsFromDict item
  let base := if base.1.isEmpty then metricsFromPages item base else base
  let ms := metricsFromFlat item base
  { siren := item.siren.getD ""
    date_cloture := item.dateCloture.getD ""
    date_depot := match item.dateDepot with
      | some d => if d = "" then none else some d
      | none => none
    type_bilan := match item.typeBilan with
      | some t => if t = "" then none else some t
      | none => none
    chiffre_affaires := (dget ms.1 ("chiffre_affaires")).getD none
    resultat_net := (dget ms.1 ("resultat_net")).getD none
    resultat_exploitation := (dget ms.1 ("resultat_exploitation")).getD none
    total_actif := (dget ms.1 ("total_actif")).getD none
    capitaux_propres := (dget ms.1 ("capitaux_propres")).getD none
    effectif := (dget ms.1 ("effectif")).getD none
    ca_precedent := (dget ms.2 ("ca_precedent")).getD none
    rn_precedent := (dget ms.2 ("rn_precedent")).getD none
    re_precedent := (dget ms.2 ("re_precedent")).getD none
    ta_precedent := (dget ms.2 ("ta_precedent")).getD none
    cp_precedent := (dget ms.2 ("cp_precedent")).getD none
    eff_precedent := (dget ms.2 ("eff_precedent")).getD none }

/-- extract_bilans_from_json over a list payload (the shard files are JSON
arrays; the dict wrappers bilans/results unwrap to such a list): one row
per record passing the filter, in order, with no deduplication. -/
def extract_bilans_from_json (items : List ItemB) : List Row :=
  items.foldl (fun rows item =>
    if keepsItem item then rows ++ [rowOfItem item] else rows) []

/-! ## build_rne_db.py : database build, update_rne_db.py : rebuild -/

/-- init_db of build_rne_db.py: sqlite3.connect creates the file when it
is absent, and the schema uses CREATE TABLE IF NOT EXISTS, so rows already
present in an existing file are retained. -/
def init_db (db : Option (List Row)) : List Row := db.getD []

/-- The per-file loop shared by build_from_cache and build_from_ftp: each
parsed file contributes its extracted rows (none = a JSON or IO error,
logged and skipped); batching commits do not change the final content.
Returns the table content after the build and the number of inserted rows
(total_rows). -/
def buildRows (files : List (Option (List ItemB))) : List Row :=
  (files.filterMap id).foldl (fun rows data => rows ++ extract_bilans_from_json data) []

/-- Outcome of the build_from_ftp call made by update_db, abstracting the
network: either the FTP stage fails before the database is touched
(missing credentials, no ZIP: build_from_ftp returns 0), or the ZIP is
read and every file processed, or an exception escapes mid-build after
some prefix of the rows was inserted (extra), or an exception escapes
before init_db ran. -/
inductive FtpOutcome where
  | noConnection : FtpOutcome
  | ok : List (Option (List ItemB)) → FtpOutcome
  | raisesEarly : FtpOutcome
  | raisesLate : List Row → FtpOutcome

/-- build_from_ftp of build_rne_db.py acting on the database file at
db_path, for a given outcome of the network stage: returns the new file
content and the total reported to the caller (an exception reports 0
because update_db catches it and sets total = 0). Note the build opens the
existing file and appends: it does not start from an empty table. -/
def build_from_ftp_step (db : Option (List Row)) : FtpOutcome → Option (List Row) × Nat
  | FtpOutcome.noConnection => (db, 0)
  | FtpOutcome.ok files => (some (init_db db ++ buildRows files), (buildRows files).length)
  | FtpOutcome.raisesEarly => (db, 0)
  | FtpOutcome.raisesLate extra => (some (init_db db ++ extra), 0)

/-- The two files update_db manipulates: the database at db_path and the
backup at the .db.bak suffix (none = the file does not exist). -/
structure DbFiles where
  db : Option (List Row)
  bak : Option (List Row)
deriving DecidableEq, Repr

/-- update_db of update_rne_db.py: copy (not rename) the current database
to the backup, run build_from_ftp into the same path, and on a positive
total delete the backup and report success, otherwise move the backup back
and report failure. -/
def update_db (fs : DbFiles) (outcome : FtpOutcome) : DbFiles × Bool :=
  let fs1 : DbFiles := if fs.db.isSome then { db := fs.db, bak := fs.db } else fs
  let built := build_from_ftp_step fs1.db outcome
  let fs2 : DbFiles := { db := built.1, bak := fs1.bak }
  if 0 < built.2 then
    ({ db := fs2.db, bak := none }, true)
  else if fs2.bak.isSome then
    ({ db := fs2.bak, bak := none }, false)
  else (fs2, false)

/-! ## enrichment_rne_ondemand.py : parse_liasse_value -/

/-- parse_liasse_value of enrichment_rne_ondemand.py: falsy or
whitespace-only values give None; otherwise int() (a failure gives None),
and values above 1000000000 are treated as cents and floor-divided
by 100. -/
def parse_liasse_value (value : String) : Option Int :=
  if value = "" ∨ pyStrip value = "" then none
  else
    match pyToInt value with
    | none => none
    | some n => some (if n > 1000000000 then n / 100 else n)

/-! ## app.py : adaptive rate limiter

Only the delay component of the session state is modelled; the
next-allowed timestamp is real time and out of scope. Python float
arithmetic is idealised over the rationals. -/

/-- The function named _on_api_success in app.py: relax the current delay
by the factor 0.95, never below the configured base delay. -/
def on_api_success (base currentDelay : ℚ) : ℚ :=
  max base (currentDelay * (95 / 100))

/-- The function named _on_api_rate_limited in app.py: prefer the
Retry-After value (a nonnegative integer) when present, else the current
delay times 1.7 to the power of the attempt index (0-based); never
decrease, and cap at the configured maximum delay. -/
def on_api_rate_limited (maxDelay : ℚ) (retryAfter : Option ℕ) (attempt : ℕ)
    (currentDelay : ℚ) : ℚ :=
  let exponentialDelay := currentDelay * (17 / 10) ^ attempt
  let target : ℚ := match retryAfter with
    | some ra => (ra : ℚ)
    | none => exponentialDelay
  min maxDelay (max currentDelay target)

/-! ## create_rne_index_ranges.py : offline index build -/

/-- One raw record as the index build reads it (only the siren key is
used). -/
structure RawRec where
  siren : Option String
deriving DecidableEq, Repr

/-- The truthy sirens of one shard file, in file order. -/
def fileSirens (data : List RawRec) : List String :=
  data.filterMap (fun b => match b.siren with
    | some s => if s = "" then none else some s
    | none => none)

/-- Smallest string of a list (sorted(...)[0] in the source). -/
def strListMin : List String → Option String
  | [] => none
  | s :: rest =>
    match strListMin rest with
    | none => some s
    | some m => some (if strLt m s then m else s)

/-- Largest string of a list (sorted(...)[-1] in the source). -/
def strListMax : List String → Option String
  | [] => none
  | s :: rest =>
    match strListMax rest with
    | none => some s
    | some m => some (if strLt m s then s else m)

/-- The entry the index build appends for one shard file, or none when the
file fails to parse (exception, logged and skipped) or holds no truthy
siren. The min and max of the sorted unique sirens are the min and max of
the siren list; companies counts the distinct sirens, bilans all of them. -/
def buildRangeEntry (name : String) (parsed : Option (List RawRec)) : Option RangeEntry :=
  match parsed with
  | none => none
  | some data =>
    let sirens := fileSirens data
    match strListMin sirens, strListMax sirens with
    | some lo, some hi =>
      some { file := name, siren_min := lo, siren_max := hi,
             companies := sirens.dedup.length, bilans := sirens.length }
    | _, _ => none

/-- The module-level build loop of create_rne_index_ranges.py: walk the
JSON members of the ZIP in sorted name order and append one entry per
shard that yields one. The input models the ZIP: member names with their
parse result. -/
def build_ranges_index (files : List (String × Option (List RawRec))) : List RangeEntry :=
  (sortAscBy Prod.fst files).foldl (fun ranges f =>
    match buildRangeEntry f.1 f.2 with
    | some e => ranges ++ [e]
    | none => ranges) []

/-! ## enrichment.py : get_finances -/

/-- Result dictionary of get_finances (absent keys are none). -/
structure FinancesResult where
  success : Bool
  siren : String
  bilans : Option (List Row)
  count : Option Nat
  source : Option String
  error : Option String
deriving DecidableEq, Repr

/-- The SELECT of get_finances: rows with the padded siren, ordered by
date_cloture descending (SQLite ties are returned in an unspecified order;
the model uses the stable one), limited to years rows (a negative SQLite
LIMIT means no limit). -/
def selectBilans (rows : List Row) (siren : String) (years : Int) : List Row :=
  let key := pyZfill siren 9
  let sel := sortDescBy Row.date_cloture (rows.filter (fun r => decide (r.siren = key)))
  if years < 0 then sel else sel.take years.toNat

/-- get_finances of enrichment.py, for a database whose file state is db
(none = no database file, the database_not_found branch). The sqlite3
error branch is an environmental failure, not modelled. -/
def get_finances (db : Option (List Row)) (siren : String) (years : Int) : FinancesResult :=
  match db with
  | none =>
    { success := false, siren := siren, bilans := none, count := none,
      source := none, error := some ("database_not_found") }
  | some rows =>
    let sel := selectBilans rows siren years
    { success := decide (0 < sel.length), siren := siren, bilans := some sel,
      count := some sel.length, source := some ("sqlite"), error := none }

/-- All liasse lines of a record, in page order (used to state the
duplicate-code hypothesis of the extraction equivalence). -/
def liasseLines (b : Bilan) : List Liasse :=
  (b.pages.map PageH.liasses).flatten

/-- Sample full-format record carrying a denomination, for the extraction
comparison. -/
def sampleFullBilan : Bilan :=
  { siren := some ("005880596"), dateCloture := some ("2020-12-31"),
    dateDepot := some ("2021-06-01"), typeBilan := some ("C"),
    denomination := some ("ACME"), hasBilanSaisi := true,
    dateClotureExercice := some ("2020-12-31"),
    pages := [⟨[⟨some ("FA"), some ("100"), some ("90")⟩]⟩],
    metrics := none }

/-! ## Bridge lemmas: the modelled string order is the Mathlib order -/

/-! ## Sample data used by the claim scenarios -/

/-- Sample pre-rebuild row for the update_db scenarios. -/
def sampleRowOld : Row :=
  { siren := "000000001", date_cloture := "2019-12-31", date_depot := none,
    type_bilan := none, chiffre_affaires := none, resultat_net := none,
    resultat_exploitation := none, total_actif := none, capitaux_propres := none,
    effectif := none, ca_precedent := none, rn_precedent := none, re_precedent := none,
    ta_precedent := none, cp_precedent := none, eff_precedent := none }

/-- Sample freshly imported record for the update_db scenarios. -/
def sampleItemNew : ItemB :=
  { siren := some ("123456789"), dateCloture := some ("2020-06-30"), dateDepot := none,
    typeBilan := none, metrics := [], pages := [], flat := fun _ => none }

/-- Sample record with a 9-letter identifier and a valid date: the build
keeps it although its identifier has no digit at all. -/
def sampleItemLetters : ItemB :=
  { siren := some ("ABCDEFGHI"), dateCloture := some ("2020-01-01"), dateDepot := none,
    typeBilan := none, metrics := [], pages := [], flat := fun _ => none }

/-- Sample shard whose file name sorts first but whose sirens are larger. -/
def sampleFilesUnsorted : List (String × Option (List RawRec)) :=
  [(("a.json"), some [⟨some ("900000000")⟩]), (("b.json"), some [⟨some ("100000000")⟩])]

/-- Sample streaming-format record sitting in the cache. -/
def sampleStreamBilan : Bilan :=
  { siren := some ("005880596"), dateCloture := some ("2020-12-31"), dateDepot := none,
    typeBilan := none, denomination := none, hasBilanSaisi := false,
    dateClotureExercice := none, pages := [], metrics := some [] }

/-- The two-shard index of the specification scenario. -/
def sampleRanges : List RangeEntry :=
  [{ file := "stock_000001.json", siren_min := "000000001", siren_max := "005000000",
     companies := 10, bilans := 10 },
   { file := "stock_000002.json", siren_min := "005000001", siren_max := "010000000",
     companies := 10, bilans := 10 }]

theorem strLt_iff (a b : String) : strLt a b ↔ a < b := by
  unfold strLt
  rw [String.lt_iff_toList_lt]
  exact Iff.rfl

theorem strLe_iff (a b : String) : strLe a b ↔ a ≤ b := by
  unfold strLe
  rw [strLt_iff, not_lt]

/-! ## Dict lemmas -/

theorem dget_cons {α : Type} (x : String × α) (xs : List (String × α)) (c : String) :
    dget (x :: xs) c = if x.1 = c then some x.2 else dget xs c := by
  unfold dget
  rw [List.find?]
  by_cases h : x.1 = c
  · simp [h]
  · simp [h]

theorem dget_map_replace {α : Type} (k c : String) (v : α) (d : List (String × α)) :
    dget (d.map (fun kv => if kv.1 = k then (k, v) else kv)) c =
      if c = k then (if d.any (fun kv => decide (kv.1 = k)) then some v else none)
      else dget d c := by
  induction d with
  | nil => by_cases hck : c = k <;> simp [dget, hck]
  | cons x xs ih =>
    rw [List.map_cons, dget_cons, dget_cons]
    by_cases hx : x.1 = k
    · simp only [if_pos hx]
      by_cases hck : c = k
      · have hany : (x :: xs).any (fun kv => decide (kv.1 = k)) = true := by
          simp [List.any_cons, hx]
        simp [hck, hany]
      · have hkc : ¬ (k = c) := fun h => hck h.symm
        have hxc : ¬ (x.1 = c) := by rw [hx]; exact hkc
        simp only [if_neg hkc, if_neg hck, if_neg hxc, ih]
    · simp only [if_neg hx]
      by_cases hck : c = k
      · have hxc : ¬ (x.1 = c) := by rw [hck]; exact hx
        have hany : (x :: xs).any (fun kv => decide (kv.1 = k)) =
            xs.any (fun kv => decide (kv.1 = k)) := by
          simp [List.any_cons, hx]
        rw [if_neg hxc, ih, if_pos hck, if_pos hck, hany]
      · simp only [if_neg hck, ih]

theorem dget_append_single {α : Type} (d : List (String × α)) (k c : String) (v : α) :
    dget (d ++ [(k, v)]) c =
      match dget d c with
      | some w => some w
      | none => if k = c then some v else none := by
  induction d with
  | nil =>
    simp only [List.nil_append, dget_cons, dget]
    by_cases h : k = c <;> simp [h]
  | cons x xs ih =>
    rw [List.cons_append, dget_cons, dget_cons]
    by_cases h : x.1 = c
    · simp [h]
    · simp only [if_neg h, ih]

theorem dget_dinsert {α : Type} (k c : String) (v : α) (d : List (String × α)) :
    dget (dinsert k v d) c = if c = k then some v else dget d c := by
  unfold dinsert
  by_cases hmem : d.any (fun kv => decide (kv.1 = k))
  · rw [if_pos hmem, dget_map_replace]
    by_cases hck : c = k
    · simp [hck, hmem]
    · simp [hck]
  · rw [if_neg hmem, dget_append_single]
    have hnone : dget d k = none := by
      unfold dget
      rw [List.find?_eq_none.mpr]
      · rfl
      · intro kv hkv
        by_contra hkvc
        exact hmem (List.any_eq_true.mpr ⟨kv, hkv, by simpa using hkvc⟩)
    by_cases hck : c = k
    · rw [hck, hnone]
    · have hkc : ¬ (k = c) := fun h => hck h.symm
      cases hfind : dget d c with
      | some w => simp [hfind, hck]
      | none => simp [hfind, hck, hkc]

theorem dget_of_not_mem_keys {α : Type} (d : List (String × α)) (c : String)
    (h : ∀ kv ∈ d, kv.1 ≠ c) : dget d c = none := by
  unfold dget
  rw [List.find?_eq_none.mpr]
  · rfl
  · intro kv hkv
    simpa using h kv hkv

/-! ## C6 : numeric metric parsing -/

/-- Claim C6, counterexample: no single numeric parser satisfies all four
examples. parse_liasse_value (enrichment_rne_ondemand.py) does not strip
inner spaces, so it parses " 1 234 " to None rather than 1234; and
_parse_amount (build_rne_db.py) has no cents threshold, so it parses
"150000000000" to 150000000000 rather than 1500000000. -/
theorem C6_parsing_counterexample :
    parse_liasse_value (" 1 234 ") = none ∧
    ¬ parse_liasse_value (" 1 234 ") = some 1234 ∧
    parse_amount (JVal.str ("150000000000")) = some 150000000000 ∧
    ¬ parse_amount (JVal.str ("150000000000")) = some 1500000000 := by
  refine ⟨by decide, by decide, by decide, by decide⟩

/-- Claim C6, amended: the four examples hold split across the two
parsers. parse_liasse_value: "" and "-" and " 1 234 " parse to null and
"150000000000" is divided by 100 (cents threshold); _parse_amount:
" 1 234 " parses to 1234 (spaces removed), "" and "-" parse to null, and
"150000000000" parses to itself (no division). -/
theorem C6_parsing_amended :
    parse_liasse_value ("") = none ∧
    parse_liasse_value ("-") = none ∧
    parse_liasse_value (" 1 234 ") = none ∧
    parse_liasse_value ("150000000000") = some 1500000000 ∧
    parse_amount (JVal.str (" 1 234 ")) = some 1234 ∧
    parse_amount (JVal.str ("")) = none ∧
    parse_amount (JVal.str ("-")) = none ∧
    parse_amount (JVal.str ("150000000000")) = some 150000000000 := by
  refine ⟨by decide, by decide, by decide, by decide, by decide, by decide, by decide, by decide⟩

/-! ## C7 : adaptive rate limiter -/

/-- Claim C7, counterexample: the first 429 of a call (attempt index 0,
no Retry-After header) multiplies the current delay by 1.7 to the power 0,
so the delay does not strictly increase: with the default base delay 0.8
and cap 8, it stays exactly 0.8. -/
theorem C7_rate_limiter_counterexample :
    on_api_rate_limited 8 none 0 (4 / 5) = 4 / 5 ∧
    ¬ (4 / 5 : ℚ) < on_api_rate_limited 8 none 0 (4 / 5) := by
  constructor
  · norm_num [on_api_rate_limited]
  · norm_num [on_api_rate_limited]

/-- Claim C7, amended: on a 429 with no Retry-After the delay is unchanged
at attempt 0 and strictly increases at every later attempt while below the
cap; the delay never exceeds the cap and never decreases on a 429; after a
success the delay becomes max(base, 0.95 x delay): it never drops below
the base delay, and strictly decreases whenever the decayed value still
clears the base. -/
theorem C7_rate_limiter_amended (cap base d : ℚ) (attempt : ℕ) (retryAfter : Option ℕ) :
    (d ≤ cap → on_api_rate_limited cap none 0 d = d) ∧
    (1 ≤ attempt → 0 < d → d < cap → d < on_api_rate_limited cap none attempt d) ∧
    on_api_rate_limited cap retryAfter attempt d ≤ cap ∧
    (d ≤ cap → d ≤ on_api_rate_limited cap retryAfter attempt d) ∧
    base ≤ on_api_success base d ∧
    (0 < d → base ≤ d * (95 / 100) → on_api_success base d = d * (95 / 100) ∧
      on_api_success base d < d) := by
  refine ⟨?_, ?_, ?_, ?_, ?_, ?_⟩
  · intro hd
    simp only [on_api_rate_limited, pow_zero, mul_one, max_self]
    exact min_eq_right hd
  · intro ha hd hcap
    have hpow : (1 : ℚ) < (17 / 10) ^ attempt := by
      apply one_lt_pow₀ (by norm_num)
      omega
    have hx : d < d * (17 / 10) ^ attempt := by
      have h1 : d * 1 < d * (17 / 10) ^ attempt := mul_lt_mul_of_pos_left hpow hd
      simpa using h1
    simp only [on_api_rate_limited]
    rw [max_eq_right (le_of_lt hx)]
    exact lt_min hcap hx
  · exact min_le_left _ _
  · intro hd
    exact le_min hd (le_max_left _ _)
  · exact le_max_left _ _
  · intro hd hbase
    have heq : on_api_success base d = d * (95 / 100) := max_eq_right hbase
    have hlt : d * (95 / 100) < d := by
      have h1 : d * (95 / 100) < d * 1 := mul_lt_mul_of_pos_left (by norm_num) hd
      simpa using h1
    exact ⟨heq, heq ▸ hlt⟩

/-- Witness for C7: at the default base 0.8 and cap 8, the second 429
strictly raises a current delay of 0.8, the result stays at most 8, and a
success from delay 2 relaxes it to 1.9, not below 0.8. -/
theorem C7_rate_limiter_witness :
    on_api_rate_limited 8 none 0 (4 / 5) = 4 / 5 ∧
    (4 / 5 : ℚ) < on_api_rate_limited 8 none 1 (4 / 5) ∧
    on_api_rate_limited 8 none 1 (4 / 5) ≤ 8 ∧
    (4 / 5 : ℚ) ≤ on_api_success (4 / 5) (4 / 5) ∧
    on_api_success (4 / 5) 2 = 2 * (95 / 100) ∧ on_api_success (4 / 5) 2 < 2 :=
  ⟨(C7_rate_limiter_amended 8 (4 / 5) (4 / 5) 0 none).1 (by norm_num),
   (C7_rate_limiter_amended 8 (4 / 5) (4 / 5) 1 none).2.1 (by norm_num) (by norm_num)
     (by norm_num),
   (C7_rate_limiter_amended 8 (4 / 5) (4 / 5) 1 none).2.2.1,
   (C7_rate_limiter_amended 8 (4 / 5) (4 / 5) 1 none).2.2.2.2.1,
   ((C7_rate_limiter_amended 8 (4 / 5) 2 1 none).2.2.2.2.2 (by norm_num) (by norm_num)).1,
   ((C7_rate_limiter_amended 8 (4 / 5) 2 1 none).2.2.2.2.2 (by norm_num) (by norm_num)).2⟩

/-! ## C3 : rebuild with backup (update_db) -/

/-- Claim C3, counterexample: update_db does not build into a new file and
swap it in. It copies the store to the backup and build_from_ftp reopens
the store path itself with CREATE TABLE IF NOT EXISTS, so a successful
rebuild that imports exactly one record leaves the store holding the old
row followed by the new one, not the freshly built content alone. -/
theorem C3_rebuild_counterexample :
    update_db { db := some [sampleRowOld], bak := none }
        (FtpOutcome.ok [some [sampleItemNew]]) =
      ({ db := some [sampleRowOld, rowOfItem sampleItemNew], bak := none }, true) ∧
    some [sampleRowOld, rowOfItem sampleItemNew] ≠ some [rowOfItem sampleItemNew] := by
  constructor
  · decide
  · decide

/-- Claim C3, amended: update_db backs the store up and rebuilds into the
same path, appending to the rows already there. When the build imports no
record or raises, the backup is moved back, so the store content equals
its pre-rebuild content exactly and failure is reported; when at least one
record is imported, the backup is deleted, success is reported, and the
store holds the old rows followed by the newly imported ones (no swap to
a store holding only the new build). -/
theorem C3_rebuild_amended (old : List Row) (bak0 : Option (List Row))
    (outcome : FtpOutcome) :
    ((build_from_ftp_step (some old) outcome).2 = 0 →
      update_db { db := some old, bak := bak0 } outcome =
        ({ db := some old, bak := none }, false)) ∧
    (0 < (build_from_ftp_step (some old) outcome).2 →
      ∃ files, outcome = FtpOutcome.ok files ∧
        update_db { db := some old, bak := bak0 } outcome =
          ({ db := some (old ++ buildRows files), bak := none }, true)) := by
  cases outcome with
  | noConnection =>
    refine ⟨fun _ => ?_, fun h => absurd h (by simp [build_from_ftp_step])⟩
    simp [update_db, build_from_ftp_step]
  | raisesEarly =>
    refine ⟨fun _ => ?_, fun h => absurd h (by simp [build_from_ftp_step])⟩
    simp [update_db, build_from_ftp_step]
  | raisesLate extra =>
    refine ⟨fun _ => ?_, fun h => absurd h (by simp [build_from_ftp_step])⟩
    simp [update_db, build_from_ftp_step]
  | ok files =>
    constructor
    · intro h0
      simp only [build_from_ftp_step] at h0
      simp [update_db, build_from_ftp_step, h0]
    · intro hpos
      simp only [build_from_ftp_step] at hpos
      refine ⟨files, rfl, ?_⟩
      simp [update_db, build_from_ftp_step, init_db, hpos]

/-- Witness for C3: a build that fails before touching the store (no FTP
connection) restores the single-row store unchanged and reports failure,
by the amended theorem. -/
theorem C3_rebuild_witness :
    update_db { db := some [sampleRowOld], bak := none } FtpOutcome.noConnection =
      ({ db := some [sampleRowOld], bak := none }, false) :=
  (C3_rebuild_amended [sampleRowOld] none FtpOutcome.noConnection).1 rfl

/-! ## Sort lemmas -/

theorem insertDescBy_mem {α : Type} (key : α → String) (x a : α) (l : List α) :
    a ∈ insertDescBy key x l ↔ a = x ∨ a ∈ l := by
  induction l with
  | nil => simp [insertDescBy]
  | cons b bs ih =>
    rw [insertDescBy]
    by_cases h : strLt (key x) (key b)
    · rw [if_pos h]
      simp only [List.mem_cons, ih]
      tauto
    · rw [if_neg h]
      simp only [List.mem_cons]

theorem sortDescBy_mem {α : Type} (key : α → String) (a : α) (l : List α) :
    a ∈ sortDescBy key l ↔ a ∈ l := by
  induction l with
  | nil => simp [sortDescBy]
  | cons b bs ih =>
    rw [sortDescBy, insertDescBy_mem]
    simp only [List.mem_cons, ih]

theorem insertDescBy_length {α : Type} (key : α → String) (x : α) (l : List α) :
    (insertDescBy key x l).length = l.length + 1 := by
  induction l with
  | nil => simp [insertDescBy]
  | cons b bs ih =>
    rw [insertDescBy]
    by_cases h : strLt (key x) (key b)
    · rw [if_pos h]
      simp [ih]
    · rw [if_neg h]
      simp

theorem sortDescBy_length {α : Type} (key : α → String) (l : List α) :
    (sortDescBy key l).length = l.length := by
  induction l with
  | nil => rfl
  | cons b bs ih =>
    rw [sortDescBy, insertDescBy_length, ih, List.length_cons]

theorem insertAscBy_mem {α : Type} (key : α → String) (x a : α) (l : List α) :
    a ∈ insertAscBy key x l ↔ a = x ∨ a ∈ l := by
  induction l with
  | nil => simp [insertAscBy]
  | cons b bs ih =>
    rw [insertAscBy]
    by_cases h : strLt (key b) (key x)
    · rw [if_pos h]
      simp only [List.mem_cons, ih]
      tauto
    · rw [if_neg h]
      simp only [List.mem_cons]

theorem insertAscBy_pairwise {α : Type} (key : α → String) (x : α) (l : List α)
    (h : l.Pairwise (fun a b => strLe (key a) (key b))) :
    (insertAscBy key x l).Pairwise (fun a b => strLe (key a) (key b)) := by
  induction l with
  | nil => simp [insertAscBy]
  | cons b bs ih =>
    rw [insertAscBy]
    rcases List.pairwise_cons.mp h with ⟨hb, hbs⟩
    by_cases hlt : strLt (key b) (key x)
    · rw [if_pos hlt]
      rw [List.pairwise_cons]
      refine ⟨?_, ih hbs⟩
      intro y hy
      rcases (insertAscBy_mem key x y bs).mp hy with hyx | hybs
      · subst hyx
        rw [strLe_iff]
        exact le_of_lt ((strLt_iff _ _).mp hlt)
      · exact hb y hybs
    · rw [if_neg hlt]
      rw [List.pairwise_cons]
      constructor
      · intro y hy
        rcases List.mem_cons.mp hy with hyb | hybs
        · subst hyb
          exact hlt
        · rw [strLe_iff]
          exact le_trans ((strLe_iff _ _).mp hlt) ((strLe_iff _ _).mp (hb y hybs))
      · exact h

theorem sortAscBy_pairwise {α : Type} (key : α → String) (l : List α) :
    (sortAscBy key l).Pairwise (fun a b => strLe (key a) (key b)) := by
  induction l with
  | nil => simp [sortAscBy]
  | cons b bs ih =>
    rw [sortAscBy]
    exact insertAscBy_pairwise key b (sortAscBy key bs) ih

theorem sortAscBy_mem {α : Type} (key : α → String) (a : α) (l : List α) :
    a ∈ sortAscBy key l ↔ a ∈ l := by
  induction l with
  | nil => simp [sortAscBy]
  | cons b bs ih =>
    rw [sortAscBy, insertAscBy_mem]
    simp only [List.mem_cons, ih]

/-! ## C10 : get_finances -/

/-- Claim C10, confirmed: for an existing database, get_finances returns
count equal to the length of its bilans list; its success flag is true
exactly when at least one row was returned; every returned row carries the
siren padded to 9 digits with zeros (the lookup key); and a siren matching
no row yields success false with empty bilans, count 0 and no error key. -/
theorem C10_get_finances_correct (rows : List Row) (siren : String) (years : Int) :
    (get_finances (some rows) siren years).count =
      some (((get_finances (some rows) siren years).bilans.getD []).length) ∧
    ((get_finances (some rows) siren years).success = true ↔
      ((get_finances (some rows) siren years).bilans.getD []) ≠ []) ∧
    (∀ r ∈ ((get_finances (some rows) siren years).bilans.getD []),
      r.siren = pyZfill siren 9) ∧
    ((∀ r ∈ rows, r.siren ≠ pyZfill siren 9) →
      get_finances (some rows) siren years =
        { success := false, siren := siren, bilans := some [], count := some 0,
          source := some ("sqlite"), error := none }) := by
  refine ⟨rfl, ?_, ?_, ?_⟩
  · simp only [get_finances, Option.getD_some, decide_eq_true_eq]
    constructor
    · intro h
      exact List.ne_nil_of_length_pos h
    · intro h
      exact List.length_pos.mpr h
  · intro r hr
    simp only [get_finances, Option.getD_some] at hr
    have hmem : r ∈ sortDescBy Row.date_cloture
        (rows.filter (fun q => decide (q.siren = pyZfill siren 9))) := by
      unfold selectBilans at hr
      by_cases hy : years < 0
      · rw [if_pos hy] at hr
        exact hr
      · rw [if_neg hy] at hr
        exact List.mem_of_mem_take hr
    rw [sortDescBy_mem] at hmem
    have := List.mem_filter.mp hmem
    simpa using this.2
  · intro hnone
    have hfil : rows.filter (fun q => decide (q.siren = pyZfill siren 9)) = [] := by
      rw [List.filter_eq_nil_iff]
      intro r hr
      simpa using hnone r hr
    have hsel : selectBilans rows siren years = [] := by
      unfold selectBilans
      simp only [hfil]
      by_cases hy : years < 0
      · rw [if_pos hy]
        simp [sortDescBy]
      · rw [if_neg hy]
        simp [sortDescBy]
    simp [get_finances, hsel]

/-- Witness for C10: a one-row database looked up with the short siren 1
(padded to 000000001) returns that row with success, and the empty
database returns the explicit negative result, both by the main theorem. -/
theorem C10_get_finances_witness :
    get_finances (some []) ("1") 7 =
      { success := false, siren := "1", bilans := some [], count := some 0,
        source := some ("sqlite"), error := none } ∧
    ((get_finances (some [sampleRowOld]) ("1") 7).success = true ↔
      ((get_finances (some [sampleRowOld]) ("1") 7).bilans.getD []) ≠ []) :=
  ⟨(C10_get_finances_correct [] ("1") 7).2.2.2 (by intro r hr; cases hr),
   (C10_get_finances_correct [sampleRowOld] ("1") 7).2.1⟩

/-! ## C5 : store build filter and row count -/

theorem extract_bilans_foldl_acc (items : List ItemB) :
    ∀ acc : List Row,
      items.foldl (fun rows item =>
        if keepsItem item then rows ++ [rowOfItem item] else rows) acc =
      acc ++ items.filterMap (fun i => if keepsItem i then some (rowOfItem i) else none) := by
  induction items with
  | nil => intro acc; simp
  | cons x xs ih =>
    intro acc
    rw [List.foldl_cons, List.filterMap_cons]
    by_cases hx : keepsItem x
    · rw [if_pos hx, ih, if_pos hx]
      simp
    · rw [if_neg hx, ih, if_neg hx]

theorem extract_bilans_eq_filterMap (items : List ItemB) :
    extract_bilans_from_json items =
      items.filterMap (fun i => if keepsItem i then some (rowOfItem i) else none) := by
  unfold extract_bilans_from_json
  rw [extract_bilans_foldl_acc]
  rfl

theorem filterMap_if_length (items : List ItemB) :
    (items.filterMap (fun i => if keepsItem i then some (rowOfItem i) else none)).length =
      items.countP (fun i => decide (keepsItem i)) := by
  induction items with
  | nil => rfl
  | cons x xs ih =>
    rw [List.filterMap_cons, List.countP_cons]
    by_cases hx : keepsItem x
    · rw [if_pos hx]
      simp [ih, hx]
    · rw [if_neg hx]
      simp [ih, hx]

/-- Claim C5, counterexample: the build checks only len(str(siren)) == 9,
not that the identifier is made of digits, so a record whose identifier is
the 9 letters ABCDEFGHI with closing date 2020-01-01 is inserted as one
row, where the claim requires zero rows for a record whose identifier is
not exactly 9 digits. -/
theorem C5_store_filter_counterexample :
    ("ABCDEFGHI").data.all Char.isDigit = false ∧
    (extract_bilans_from_json [sampleItemLetters]).length = 1 := by
  constructor
  · decide
  · decide

/-- Claim C5, amended: the build inserts exactly one row per input record
whose identifier is truthy with exactly 9 characters (not necessarily
digits) and whose closing date is truthy and not lexicographically below
2019-01-01, zero rows for every other record, with no deduplication:
the row count is the count of records passing the filter, a replicated
valid record yields one row per copy (100 copies give 100 rows), and the
whole build totals the per-file counts. -/
theorem C5_store_filter_amended (items : List ItemB) (item : ItemB)
    (files : List (Option (List ItemB))) :
    (extract_bilans_from_json items).length =
      items.countP (fun i => decide (keepsItem i)) ∧
    (keepsItem item →
      extract_bilans_from_json (List.replicate 100 item) =
        List.replicate 100 (rowOfItem item)) ∧
    (buildRows files).length =
      ((files.filterMap id).map
        (fun data => data.countP (fun i => decide (keepsItem i)))).sum := by
  refine ⟨?_, ?_, ?_⟩
  · rw [extract_bilans_eq_filterMap, filterMap_if_length]
  · intro hkeep
    rw [extract_bilans_eq_filterMap]
    have hrep : ∀ n : ℕ,
        (List.replicate n item).filterMap
          (fun i => if keepsItem i then some (rowOfItem i) else none) =
        List.replicate n (rowOfItem item) := by
      intro n
      induction n with
      | zero => rfl
      | succ m ih =>
        rw [List.replicate_succ, List.filterMap_cons, if_pos hkeep, List.replicate_succ, ih]
    exact hrep 100
  · unfold buildRows
    have hfold : ∀ (ds : List (List ItemB)) (acc : List Row),
        (ds.foldl (fun rows data => rows ++ extract_bilans_from_json data) acc).length =
          acc.length + (ds.map (fun data => data.countP (fun i => decide (keepsItem i)))).sum := by
      intro ds
      induction ds with
      | nil => intro acc; simp
      | cons d rest ih =>
        intro acc
        rw [List.foldl_cons, ih, List.map_cons, List.sum_cons, List.length_append,
          extract_bilans_eq_filterMap, filterMap_if_length]
        omega
    rw [hfold]
    simp

/-- Witness for C5: replicating the sample valid record 100 times yields
exactly 100 rows, by the amended theorem. -/
theorem C5_store_filter_witness :
    extract_bilans_from_json (List.replicate 100 sampleItemNew) =
      List.replicate 100 (rowOfItem sampleItemNew) :=
  (C5_store_filter_amended [] sampleItemNew []).2.1 (by decide)

/-! ## C8 : offline index build order -/

theorem strListMin_spec (l : List String) (m : String) (h : strListMin l = some m) :
    m ∈ l ∧ ∀ s ∈ l, strLe m s := by
  induction l generalizing m with
  | nil => cases h
  | cons s rest ih =>
    rw [strListMin] at h
    cases hrest : strListMin rest with
    | none =>
      simp only [hrest, Option.some.injEq] at h
      have hnil : rest = [] := by
        cases rest with
        | nil => rfl
        | cons x xs =>
          rw [strListMin] at hrest
          cases hx : strListMin xs <;> rw [hx] at hrest <;> cases hrest
      subst hnil
      refine ⟨by rw [h]; exact List.mem_singleton.mpr rfl, ?_⟩
      intro x hx
      rw [List.mem_singleton] at hx
      subst hx
      rw [← h, strLe_iff]
    | some m0 =>
      simp only [hrest, Option.some.injEq] at h
      obtain ⟨hmem0, hall0⟩ := ih m0 hrest
      by_cases hlt : strLt m0 s
      · rw [if_pos hlt] at h
        refine ⟨by rw [← h]; exact List.mem_cons_of_mem s hmem0, ?_⟩
        intro x hx
        rcases List.mem_cons.mp hx with hxs | hxr
        · rw [← h, hxs, strLe_iff]
          exact le_of_lt ((strLt_iff _ _).mp hlt)
        · rw [← h]
          exact hall0 x hxr
      · rw [if_neg hlt] at h
        refine ⟨by rw [← h]; exact List.mem_cons_self _ _, ?_⟩
        intro x hx
        rcases List.mem_cons.mp hx with hxs | hxr
        · rw [← h, hxs, strLe_iff]
        · rw [← h, strLe_iff]
          exact le_trans ((strLe_iff _ _).mp hlt) ((strLe_iff _ _).mp (hall0 x hxr))

theorem strListMax_spec (l : List String) (m : String) (h : strListMax l = some m) :
    m ∈ l ∧ ∀ s ∈ l, strLe s m := by
  induction l generalizing m with
  | nil => cases h
  | cons s rest ih =>
    rw [strListMax] at h
    cases hrest : strListMax rest with
    | none =>
      simp only [hrest, Option.some.injEq] at h
      have hnil : rest = [] := by
        cases rest with
        | nil => rfl
        | cons x xs =>
          rw [strListMax] at hrest
          cases hx : strListMax xs <;> rw [hx] at hrest <;> cases hrest
      subst hnil
      refine ⟨by rw [h]; exact List.mem_singleton.mpr rfl, ?_⟩
      intro x hx
      rw [List.mem_singleton] at hx
      subst hx
      rw [← h, strLe_iff]
    | some m0 =>
      simp only [hrest, Option.some.injEq] at h
      obtain ⟨hmem0, hall0⟩ := ih m0 hrest
      by_cases hlt : strLt m0 s
      · rw [if_pos hlt] at h
        refine ⟨by rw [← h]; exact List.mem_cons_self _ _, ?_⟩
        intro x hx
        rcases List.mem_cons.mp hx with hxs | hxr
        · rw [← h, hxs, strLe_iff]
        · rw [← h, strLe_iff]
          exact le_trans ((strLe_iff _ _).mp (hall0 x hxr))
            (le_of_lt ((strLt_iff _ _).mp hlt))
      · rw [if_neg hlt] at h
        refine ⟨by rw [← h]; exact List.mem_cons_of_mem s hmem0, ?_⟩
        intro x hx
        rcases List.mem_cons.mp hx with hxs | hxr
        · rw [← h, hxs]
          exact hlt
        · rw [← h]
          exact hall0 x hxr

theorem pairwise_filterMap_of {α β : Type} {R : α → α → Prop} {S : β → β → Prop}
    (f : α → Option β)
    (h : ∀ a b x y, R a b → f a = some x → f b = some y → S x y) :
    ∀ l : List α, l.Pairwise R → (l.filterMap f).Pairwise S := by
  intro l
  induction l with
  | nil => intro _; simp
  | cons a rest ih =>
    intro hp
    rcases List.pairwise_cons.mp hp with ⟨ha, hrest⟩
    rw [List.filterMap_cons]
    cases hfa : f a with
    | none => exact ih hrest
    | some x =>
      rw [List.pairwise_cons]
      refine ⟨?_, ih hrest⟩
      intro y hy
      rcases List.mem_filterMap.mp hy with ⟨b, hb, hfb⟩
      exact h a b x y (ha b hb) hfa hfb

theorem buildRangeEntry_some (name : String) (p : Option (List RawRec)) (e : RangeEntry)
    (h : buildRangeEntry name p = some e) :
    ∃ data lo hi, p = some data ∧ strListMin (fileSirens data) = some lo ∧
      strListMax (fileSirens data) = some hi ∧
      e = { file := name, siren_min := lo, siren_max := hi,
            companies := (fileSirens data).dedup.length,
            bilans := (fileSirens data).length } := by
  cases p with
  | none => cases h
  | some data =>
    simp only [buildRangeEntry] at h
    cases hmin : strListMin (fileSirens data) with
    | none =>
      simp only [hmin] at h
      exact Option.noConfusion h
    | some lo =>
      cases hmax : strListMax (fileSirens data) with
      | none =>
        simp only [hmin, hmax] at h
        exact Option.noConfusion h
      | some hi =>
        simp only [hmin, hmax, Option.some.injEq] at h
        exact ⟨data, lo, hi, rfl, hmin, hmax, h.symm⟩

theorem build_ranges_eq_filterMap (files : List (String × Option (List RawRec))) :
    build_ranges_index files =
      (sortAscBy Prod.fst files).filterMap (fun f => buildRangeEntry f.1 f.2) := by
  unfold build_ranges_index
  have hacc : ∀ (l : List (String × Option (List RawRec))) (acc : List RangeEntry),
      l.foldl (fun ranges f =>
        match buildRangeEntry f.1 f.2 with
        | some e => ranges ++ [e]
        | none => ranges) acc =
      acc ++ l.filterMap (fun f => buildRangeEntry f.1 f.2) := by
    intro l
    induction l with
    | nil => intro acc; simp
    | cons x xs ih =>
      intro acc
      rw [List.foldl_cons, List.filterMap_cons]
      cases hx : buildRangeEntry x.1 x.2 with
      | none => rw [ih]
      | some e =>
        rw [ih]
        simp
  rw [hacc]
  rfl

/-- Claim C8, counterexample: the index build sorts the shard file names,
never the resulting entries by siren_min; with a shard a.json holding
siren 900000000 and a shard b.json holding siren 100000000 the produced
array is not sorted ascending by siren_min. -/
theorem C8_index_sorted_counterexample :
    build_ranges_index sampleFilesUnsorted =
      [{ file := "a.json", siren_min := "900000000", siren_max := "900000000",
         companies := 1, bilans := 1 },
       { file := "b.json", siren_min := "100000000", siren_max := "100000000",
         companies := 1, bilans := 1 }] ∧
    ¬ (build_ranges_index sampleFilesUnsorted).Pairwise
        (fun x y => strLe x.siren_min y.siren_min) := by
  constructor
  · decide
  · decide

/-- Claim C8, amended: the offline build walks the shard files in
ascending file-name order and appends at most one entry per shard (shards
with no truthy siren or a parse error yield none), so for every input the
produced array is sorted ascending by file name, every entry satisfies
siren_min less or equal siren_max (they are the least and greatest siren
of its shard), and every entry comes from a parsed input shard; the array
is sorted by siren_min only when file-name order agrees with identifier
order, as it does for the numbered shards of the real dataset. -/
theorem C8_index_build_amended (files : List (String × Option (List RawRec))) :
    (build_ranges_index files).Pairwise (fun x y => strLe x.file y.file) ∧
    (∀ e ∈ build_ranges_index files, strLe e.siren_min e.siren_max) ∧
    (∀ e ∈ build_ranges_index files,
      ∃ d, (e.file, some d) ∈ files ∧ buildRangeEntry e.file (some d) = some e) := by
  refine ⟨?_, ?_, ?_⟩
  · rw [build_ranges_eq_filterMap]
    apply pairwise_filterMap_of (fun f => buildRangeEntry f.1 f.2)
      (h := ?_) (l := sortAscBy Prod.fst files)
    · exact sortAscBy_pairwise Prod.fst files
    · intro a b x y hab hfa hfb
      obtain ⟨da, loa, hia, _, _, _, hxe⟩ := buildRangeEntry_some a.1 a.2 x hfa
      obtain ⟨db, lob, hib, _, _, _, hye⟩ := buildRangeEntry_some b.1 b.2 y hfb
      rw [hxe, hye]
      exact hab
  · intro e he
    rw [build_ranges_eq_filterMap] at he
    rcases List.mem_filterMap.mp he with ⟨f, _, hf⟩
    obtain ⟨data, lo, hi, _, hmin, hmax, hee⟩ := buildRangeEntry_some f.1 f.2 e hf
    obtain ⟨hlomem, _⟩ := strListMin_spec (fileSirens data) lo hmin
    obtain ⟨_, hhiall⟩ := strListMax_spec (fileSirens data) hi hmax
    rw [hee]
    exact hhiall lo hlomem
  · intro e he
    rw [build_ranges_eq_filterMap] at he
    rcases List.mem_filterMap.mp he with ⟨f, hfmem, hf⟩
    have hfmem2 : f ∈ files := (sortAscBy_mem Prod.fst f files).mp hfmem
    obtain ⟨data, lo, hi, hp, hmin, hmax, hee⟩ := buildRangeEntry_some f.1 f.2 e hf
    refine ⟨data, ?_, ?_⟩
    · have hfile : e.file = f.1 := by rw [hee]
      rw [hfile, ← hp]
      exact hfmem2
    · have hfile : e.file = f.1 := by rw [hee]
      rw [hfile, ← hp]
      exact hf

/-- Witness for C8: on the concrete two-shard input the first produced
entry satisfies siren_min less or equal siren_max, by the amended
theorem. -/
theorem C8_index_build_witness :
    strLe ("900000000") ("900000000") :=
  (C8_index_build_amended sampleFilesUnsorted).2.1
    { file := "a.json", siren_min := "900000000", siren_max := "900000000",
      companies := 1, bilans := 1 } (by decide)

/-! ## C9 : cache eviction in limited-space mode -/

theorem dget_filter_ne (entries : List (String × List Bilan)) (f : String) :
    dget (entries.filter (fun kv => decide (kv.1 ≠ f))) f = none := by
  unfold dget
  rw [List.find?_eq_none.mpr]
  · rfl
  · intro kv hkv
    rcases List.mem_filter.mp hkv with ⟨_, hne⟩
    simp only [decide_eq_true_eq] at hne ⊢
    exact hne

theorem filter_ne_of_dget_none (entries : List (String × List Bilan)) (f : String)
    (h : dget entries f = none) :
    entries.filter (fun kv => decide (kv.1 ≠ f)) = entries := by
  rw [List.filter_eq_self]
  intro kv hkv
  simp only [decide_eq_true_eq]
  intro hkf
  unfold dget at h
  cases hfind : List.find? (fun kv => decide (kv.1 = f)) entries with
  | some w =>
    rw [hfind] at h
    cases h
  | none =>
    have := List.find?_eq_none.mp hfind kv hkv
    simp only [decide_eq_true_eq] at this
    exact this hkf

theorem processOneSiren_isSome (data : List Bilan) (s : String) (maxb : Nat)
    (h : 1 ≤ maxb) : (processOneSiren data s maxb).isSome := by
  cases hfil : data.filter (fun b => decide (b.siren = some (pyZfill s 9))) with
  | nil =>
    simp only [processOneSiren, hfil]
    rfl
  | cons b bs =>
    simp only [processOneSiren, hfil]
    cases hs : sortDescBy (fun x => x.dateCloture.getD "") (b :: bs) with
    | nil =>
      have hlen := sortDescBy_length (fun x => x.dateCloture.getD "") (b :: bs)
      rw [hs] at hlen
      simp at hlen
    | cons y ys =>
      cases maxb with
      | zero => omega
      | succ m =>
        simp only [List.take_succ_cons]
        rfl

theorem foldl_bind_some (data : List Bilan) (maxb : Nat) (hmaxb : 1 ≤ maxb) :
    ∀ (gs : List String) (m0 : List (String × EnrichResult)),
      gs.foldl (fun acc s => acc.bind (fun m =>
        (processOneSiren data s maxb).map (fun r => dinsert s r m))) (some m0) =
      some (gs.foldl (fun m s =>
        match processOneSiren data s maxb with
        | some r => dinsert s r m
        | none => m) m0) := by
  intro gs
  induction gs with
  | nil => intro m0; rfl
  | cons x xs ih =>
    intro m0
    rw [List.foldl_cons, List.foldl_cons]
    obtain ⟨r, hr⟩ := Option.isSome_iff_exists.mp (processOneSiren_isSome data x maxb hmaxb)
    rw [hr]
    dsimp only [Option.bind_some, Option.map_some]
    exact ih (dinsert x r m0)

/-- Claim C9, counterexample: in limited-space mode process_batch honours
cleanup only for shard numbers at least 85. For shard stock_000001.json,
cached and processed with cleanup requested, the cache entry still exists
after the task returns (and the task did return a result map). -/
theorem C9_eviction_counterexample :
    (process_batch (fun _ => none) ⟨[(("stock_000001.json"), [sampleStreamBilan])]⟩
        ("stock_000001.json") [("005880596")] 10 true).1.isSome = true ∧
    dget (process_batch (fun _ => none) ⟨[(("stock_000001.json"), [sampleStreamBilan])]⟩
        ("stock_000001.json") [("005880596")] 10 true).2.entries ("stock_000001.json") =
      some [sampleStreamBilan] := by
  constructor
  · decide
  · decide

/-- Claim C9, amended: in limited-space mode a batch task with cleanup
requested evicts its shard only when the shard file number is at least 85
(the first 84 shard files are deliberately kept); for such shards, when
the download yields nonempty data (and max_bilans is at least 1, so no
task exception) the cache entry no longer exists once process_batch
returns; and eviction is a no-op on an absent entry, hence safe to
invoke. -/
theorem C9_eviction_amended (remote : String → Option (List Bilan)) (cache : Cache)
    (filename : String) (sirens : List String) (maxb : Nat) (n : Int)
    (hnum : shardFileNum filename = some n) (h85 : 85 ≤ n) (hmaxb : 1 ≤ maxb) :
    (∀ data, (download_json_from_ftp remote cache filename).1 = some data → data ≠ [] →
      process_batch remote cache filename sirens maxb true =
        (some (sirens.foldl (fun m s =>
          match processOneSiren data s maxb with
          | some r => dinsert s r m
          | none => m) []),
          ⟨((download_json_from_ftp remote cache filename).2).entries.filter
            (fun kv => decide (kv.1 ≠ filename))⟩) ∧
      dget (((download_json_from_ftp remote cache filename).2).entries.filter
        (fun kv => decide (kv.1 ≠ filename))) filename = none) ∧
    (∀ entries : List (String × List Bilan), dget entries filename = none →
      entries.filter (fun kv => decide (kv.1 ≠ filename)) = entries) := by
  constructor
  · intro data hdata hne
    have hsplit : download_json_from_ftp remote cache filename =
        (some data, (download_json_from_ftp remote cache filename).2) := by
      rw [← hdata]
    have hempty : data.isEmpty = false := by
      cases data with
      | nil => exact absurd rfl hne
      | cons x xs => rfl
    constructor
    · unfold process_batch
      rw [hnum]
      dsimp only
      rw [hsplit]
      dsimp only
      simp only [hempty, Bool.false_eq_true, if_false]
      rw [foldl_bind_some data maxb hmaxb sirens []]
      have hcleanup : (true && decide (85 ≤ n)) = true := by
        simp [h85]
      simp [hcleanup]
    · exact dget_filter_ne _ _
  · intro entries h
    exact filter_ne_of_dget_none entries filename h

/-- Witness for C9: for shard stock_000085.json (number 85) the eviction
no-op on an empty cache is obtained from the amended theorem. -/
theorem C9_eviction_witness :
    ([] : List (String × List Bilan)).filter
      (fun kv => decide (kv.1 ≠ "stock_000085.json")) = [] :=
  (C9_eviction_amended (fun _ => none) ⟨[]⟩ ("stock_000085.json") [] 10 85
    (by decide) (by decide) (by decide)).2 [] (by decide)

/-! ## C2 : range index lookup (binary search) -/

theorem mid_ge_left (left right : Nat) (h : left ≤ right) : left ≤ (left + right) / 2 := by
  have hll : left + left ≤ left + right := by omega
  calc left = (left + left) / 2 := by omega
    _ ≤ (left + right) / 2 := Nat.div_le_div_right hll

theorem mid_le_right (left right : Nat) (h : left ≤ right) : (left + right) / 2 ≤ right := by
  have hlr : left + right ≤ right + right := by omega
  calc (left + right) / 2 ≤ (right + right) / 2 := Nat.div_le_div_right hlr
    _ = right := by omega

/-- Fidelity of the disjointness hypothesis: for entries whose range is
nonempty, the interval form of pairwise disjointness used below is exactly
the absence of a shared identifier. -/
theorem rangesDisjoint_iff (a b : RangeEntry)
    (ha : strLe a.siren_min a.siren_max) (hb : strLe b.siren_min b.siren_max) :
    (strLt a.siren_max b.siren_min ∨ strLt b.siren_max a.siren_min) ↔
      ∀ s, ¬ (inRange a s ∧ inRange b s) := by
  constructor
  · intro h s hs
    obtain ⟨⟨has1, has2⟩, ⟨hbs1, hbs2⟩⟩ := hs
    rw [strLe_iff] at has1 has2 hbs1 hbs2
    rcases h with h | h
    · rw [strLt_iff] at h
      exact absurd (lt_of_le_of_lt has2 (lt_of_lt_of_le h hbs1)) (lt_irrefl s)
    · rw [strLt_iff] at h
      exact absurd (lt_of_le_of_lt hbs2 (lt_of_lt_of_le h has1)) (lt_irrefl s)
  · intro h
    by_contra hno
    push_neg at hno
    obtain ⟨h1, h2⟩ := hno
    rw [strLt_iff, not_lt] at h1 h2
    rw [strLe_iff] at ha hb
    refine h (max a.siren_min b.siren_min) ⟨⟨?_, ?_⟩, ⟨?_, ?_⟩⟩
    · rw [strLe_iff]
      exact le_max_left _ _
    · rw [strLe_iff]
      exact max_le ha h1
    · rw [strLe_iff]
      exact le_max_right _ _
    · rw [strLe_iff]
      exact max_le h2 hb

/-- Under sortedness by siren_min, nonemptiness of every range and
pairwise disjointness, an earlier range ends strictly before a later one
begins. -/
theorem ranges_separated (ranges : List RangeEntry)
    (hwf : ∀ r ∈ ranges, strLe r.siren_min r.siren_max)
    (hsorted : ranges.Pairwise (fun a b => strLe a.siren_min b.siren_min))
    (hdisj : ranges.Pairwise
      (fun a b => strLt a.siren_max b.siren_min ∨ strLt b.siren_max a.siren_min)) :
    ∀ i j (hi : i < ranges.length) (hj : j < ranges.length), i < j →
      strLt ranges[i].siren_max ranges[j].siren_min := by
  intro i j hi hj hij
  have hs := List.pairwise_iff_getElem.mp hsorted i j hi hj hij
  have hd := List.pairwise_iff_getElem.mp hdisj i j hi hj hij
  rcases hd with hd | hd
  · exact hd
  · exfalso
    have hwfj := hwf ranges[j] (List.getElem_mem hj)
    rw [strLe_iff] at hs hwfj
    rw [strLt_iff] at hd
    exact absurd (lt_of_le_of_lt (le_trans hs hwfj) hd)
      (lt_irrefl ranges[i].siren_min)

/-- Under separation, at most one entry contains a given identifier. -/
theorem inRange_unique (ranges : List RangeEntry) (s : String)
    (hsep : ∀ i j (hi : i < ranges.length) (hj : j < ranges.length), i < j →
      strLt ranges[i].siren_max ranges[j].siren_min) :
    ∀ i j (hi : i < ranges.length) (hj : j < ranges.length),
      inRange ranges[i] s → inRange ranges[j] s → i = j := by
  intro i j hi hj hin hjn
  by_contra hne
  rcases Nat.lt_or_ge i j with hij | hij
  · have hlt := hsep i j hi hj hij
    obtain ⟨_, hi2⟩ := hin
    obtain ⟨hj1, _⟩ := hjn
    rw [strLe_iff] at hi2 hj1
    rw [strLt_iff] at hlt
    exact absurd (lt_of_le_of_lt hi2 (lt_of_lt_of_le hlt hj1)) (lt_irrefl s)
  · have hji : j < i := by omega
    have hlt := hsep j i hj hi hji
    obtain ⟨hi1, _⟩ := hin
    obtain ⟨_, hj2⟩ := hjn
    rw [strLe_iff] at hi1 hj2
    rw [strLt_iff] at hlt
    exact absurd (lt_of_le_of_lt hj2 (lt_of_lt_of_le hlt hi1)) (lt_irrefl s)

/-- The binary search loop returns none when no entry contains the
identifier, for every fuel and interval. -/
theorem findFileLoop_none (ranges : List RangeEntry) (s : String)
    (hno : ∀ k (hk : k < ranges.length), ¬ inRange ranges[k] s) :
    ∀ fuel left right, findFileLoop ranges s fuel left right = none := by
  intro fuel
  induction fuel with
  | zero => intro left right; rfl
  | succ f ih =>
    intro left right
    rw [findFileLoop]
    by_cases h : left ≤ right ∧ right < ranges.length
    · rw [if_pos h]
      have hm : (left + right) / 2 < ranges.length :=
        lt_of_le_of_lt (mid_le_right left right h.1) h.2
      rw [List.getElem?_eq_getElem hm]
      dsimp only
      have hnot : ¬ (strLe ranges[(left + right) / 2].siren_min s ∧
          strLe s ranges[(left + right) / 2].siren_max) := hno ((left + right) / 2) hm
      rw [if_neg hnot]
      by_cases hlt : strLt s ranges[(left + right) / 2].siren_min
      · rw [if_pos hlt]
        by_cases hz : (left + right) / 2 = 0
        · rw [if_pos hz]
        · rw [if_neg hz]
          exact ih left ((left + right) / 2 - 1)
      · rw [if_neg hlt]
        exact ih ((left + right) / 2 + 1) right
    · rw [if_neg h]

/-- The binary search loop finds the entry containing the identifier,
given separation, well-formed entries, enough fuel, and a containing index
inside the live interval. -/
theorem findFileLoop_finds (ranges : List RangeEntry) (s : String)
    (hwf : ∀ r ∈ ranges, strLe r.siren_min r.siren_max)
    (hsep : ∀ i j (hi : i < ranges.length) (hj : j < ranges.length), i < j →
      strLt ranges[i].siren_max ranges[j].siren_min) :
    ∀ fuel left right j (hj : j < ranges.length), left ≤ j → j ≤ right →
      right < ranges.length → right + 1 - left ≤ fuel →
      inRange ranges[j] s →
      findFileLoop ranges s fuel left right = some ranges[j].file := by
  intro fuel
  induction fuel with
  | zero =>
    intro left right j hj hlj hjr hrl hsize hin
    omega
  | succ f ih =>
    intro left right j hj hlj hjr hrl hsize hin
    have hlr : left ≤ right := le_trans hlj hjr
    rw [findFileLoop, if_pos ⟨hlr, hrl⟩]
    have hm : (left + right) / 2 < ranges.length :=
      lt_of_le_of_lt (mid_le_right left right hlr) hrl
    have hml : left ≤ (left + right) / 2 := mid_ge_left left right hlr
    have hmr : (left + right) / 2 ≤ right := mid_le_right left right hlr
    rw [List.getElem?_eq_getElem hm]
    dsimp only
    by_cases hinm : strLe ranges[(left + right) / 2].siren_min s ∧
        strLe s ranges[(left + right) / 2].siren_max
    · have hjm : j = (left + right) / 2 :=
        inRange_unique ranges s hsep j ((left + right) / 2) hj hm hin hinm
      rw [if_pos hinm]
      subst hjm
      rfl
    · rw [if_neg hinm]
      by_cases hlt : strLt s ranges[(left + right) / 2].siren_min
      · rw [if_pos hlt]
        have hjmid : j < (left + right) / 2 := by
          rcases Nat.lt_or_ge j ((left + right) / 2) with hcase | hcase
          · exact hcase
          · exfalso
            rcases Nat.eq_or_lt_of_le hcase with heq | hgt
            · exact hinm (heq ▸ hin)
            · have hsepm := hsep ((left + right) / 2) j hm hj hgt
              obtain ⟨hj1, _⟩ := hin
              have hwfm := hwf ranges[(left + right) / 2] (List.getElem_mem hm)
              rw [strLe_iff] at hj1 hwfm
              rw [strLt_iff] at hlt hsepm
              exact absurd
                (lt_trans (lt_of_le_of_lt hwfm hsepm) (lt_of_le_of_lt hj1 hlt))
                (lt_irrefl _)
        have hz : (left + right) / 2 ≠ 0 := by omega
        rw [if_neg hz]
        exact ih left ((left + right) / 2 - 1) j hj hlj (by omega) (by omega)
          (by omega) hin
      · rw [if_neg hlt]
        have hgt : strLt ranges[(left + right) / 2].siren_max s := by
          rcases Decidable.not_and_iff_or_not.mp hinm with h1 | h2
          · exact absurd hlt (by unfold strLe at h1; simpa using h1)
          · unfold strLe at h2
            exact Decidable.not_not.mp h2
        have hjmid : (left + right) / 2 < j := by
          rcases Nat.lt_or_ge ((left + right) / 2) j with hcase | hcase
          · exact hcase
          · exfalso
            rcases Nat.eq_or_lt_of_le hcase with heq | hlt2
            · exact hinm (heq ▸ hin)
            · have hsepm := hsep j ((left + right) / 2) hj hm hlt2
              obtain ⟨_, hj2⟩ := hin
              rw [strLe_iff] at hj2
              rw [strLt_iff] at hsepm
              have hmin : strLe ranges[(left + right) / 2].siren_min s := hlt
              rw [strLe_iff] at hmin
              exact absurd (lt_of_le_of_lt (le_trans hmin hj2) hsepm) (lt_irrefl _)
        exact ih ((left + right) / 2 + 1) right j hj (by omega) hjr hrl (by omega) hin

theorem pyZfill_of_length (s : String) (h : s.length = 9) : pyZfill s 9 = s := by
  unfold pyZfill
  rw [if_pos (by omega)]

theorem find_file_linear_none (s : String) :
    ∀ ranges : List RangeEntry,
      (∀ k (hk : k < ranges.length), ¬ inRange ranges[k] s) →
      find_file_linear s ranges = none := by
  intro ranges
  induction ranges with
  | nil => intro _; rfl
  | cons r rest ih =>
    intro hno
    rw [find_file_linear]
    have h0 : ¬ (strLe r.siren_min s ∧ strLe s r.siren_max) := hno 0 (by simp)
    rw [if_neg h0]
    apply ih
    intro k hk
    exact hno (k + 1) (by simpa using hk)

theorem find_file_linear_finds (s : String) :
    ∀ (ranges : List RangeEntry) (j : Nat) (hj : j < ranges.length),
      inRange ranges[j] s →
      (∀ i (hi : i < ranges.length), inRange ranges[i] s → i = j) →
      find_file_linear s ranges = some ranges[j].file := by
  intro ranges
  induction ranges with
  | nil =>
    intro j hj
    simp at hj
  | cons r rest ih =>
    intro j hj hin huniq
    rw [find_file_linear]
    cases j with
    | zero =>
      have hin0 : strLe r.siren_min s ∧ strLe s r.siren_max := hin
      rw [if_pos hin0]
      rfl
    | succ j0 =>
      have hr : ¬ (strLe r.siren_min s ∧ strLe s r.siren_max) := by
        intro hr0
        have := huniq 0 (by simp) hr0
        cases this
      rw [if_neg hr]
      have hj0 : j0 < rest.length := by simpa using hj
      have hin0 : inRange rest[j0] s := by
        simpa using hin
      have := ih j0 hj0 hin0 (fun i hi hini => by
        have := huniq (i + 1) (by simpa using hi) (by simpa using hini)
        omega)
      rw [this]
      simp

/-- Claim C2, confirmed: for a range index whose entries are sorted
ascending by siren_min, each a nonempty range, pairwise disjoint (stated
in interval form, equivalent to sharing no identifier by
rangesDisjoint_iff), and a 9-character identifier: the binary search
returns the file of the entry containing the identifier whenever one
does, returns none when the identifier lies in a gap covered by no entry,
and agrees with the linear scan over all entries. -/
theorem C2_range_lookup_correct (ranges : List RangeEntry) (siren : String)
    (hlen : siren.length = 9)
    (hwf : ∀ r ∈ ranges, strLe r.siren_min r.siren_max)
    (hsorted : ranges.Pairwise (fun a b => strLe a.siren_min b.siren_min))
    (hdisj : ranges.Pairwise
      (fun a b => strLt a.siren_max b.siren_min ∨ strLt b.siren_max a.siren_min)) :
    (∀ j (hj : j < ranges.length), inRange ranges[j] siren →
      find_file_for_siren siren ranges = some ranges[j].file) ∧
    ((∀ j (hj : j < ranges.length), ¬ inRange ranges[j] siren) →
      find_file_for_siren siren ranges = none) ∧
    find_file_for_siren siren ranges = find_file_linear siren ranges := by
  have hsep := ranges_separated ranges hwf hsorted hdisj
  have hpad : pyZfill siren 9 = siren := pyZfill_of_length siren hlen
  have hfind : ∀ j (hj : j < ranges.length), inRange ranges[j] siren →
      find_file_for_siren siren ranges = some ranges[j].file := by
    intro j hj hin
    unfold find_file_for_siren
    have hne : ranges.isEmpty = false := by
      cases ranges with
      | nil => simp at hj
      | cons x xs => rfl
    rw [hne, hpad]
    simp only [Bool.false_eq_true, if_false]
    exact findFileLoop_finds ranges siren hwf hsep (ranges.length + 1) 0
      (ranges.length - 1) j hj (by omega) (by omega) (by omega) (by omega) hin
  have hnone : (∀ j (hj : j < ranges.length), ¬ inRange ranges[j] siren) →
      find_file_for_siren siren ranges = none := by
    intro hno
    unfold find_file_for_siren
    by_cases hne : ranges.isEmpty
    · rw [if_pos hne]
    · rw [if_neg hne, hpad]
      exact findFileLoop_none ranges siren hno (ranges.length + 1) 0 (ranges.length - 1)
  refine ⟨hfind, hnone, ?_⟩
  by_cases hex : ∃ j, ∃ hj : j < ranges.length, inRange ranges[j] siren
  · obtain ⟨j, hj, hin⟩ := hex
    rw [hfind j hj hin]
    rw [find_file_linear_finds siren ranges j hj hin]
    intro i hi hini
    exact inRange_unique ranges siren hsep i j hi hj hini hin
  · push_neg at hex
    rw [hnone hex, find_file_linear_none siren ranges hex]

/-- Witness for C2: on the two-shard index of the specification scenario,
identifier 005880596 resolves to the second shard and the binary search
agrees with the linear scan, by the main theorem. -/
theorem C2_range_lookup_witness :
    find_file_for_siren ("005880596") sampleRanges = some ("stock_000002.json") ∧
    find_file_for_siren ("005880596") sampleRanges =
      find_file_linear ("005880596") sampleRanges :=
  have h := C2_range_lookup_correct sampleRanges ("005880596") (by decide) (by decide)
    (by decide) (by decide)
  ⟨h.1 1 (by decide) (by decide), h.2.2⟩

/-! ## C4 : full versus compact extraction -/

theorem foldl_pages {β : Type} (g : β → Liasse → β) (pages : List PageH) :
    ∀ init : β,
      pages.foldl (fun acc page => page.liasses.foldl g acc) init =
      ((pages.map PageH.liasses).flatten).foldl g init := by
  induction pages with
  | nil => intro init; rfl
  | cons p ps ih =>
    intro init
    rw [List.foldl_cons, List.map_cons, List.flatten_cons, List.foldl_append, ih]

theorem empty_not_code : ("") ∉ LIASSE_CODES_keys := by decide

theorem dget_fullStep_of_ne (c : String) (hc : c ∈ LIASSE_CODES_keys) (x : Liasse)
    (hx : x.code ≠ some c) (acc : List (String × Int)) :
    dget (fullStep acc x) c = dget acc c := by
  unfold fullStep
  by_cases hmem : x.code.getD "" ∈ LIASSE_CODES_keys
  · rw [if_pos hmem]
    cases hp : parseMetricValue x.m1 with
    | none => rfl
    | some n =>
      rw [dget_dinsert]
      have hne : c ≠ x.code.getD "" := by
        intro heq
        cases hcode : x.code with
        | none =>
          rw [hcode] at heq
          have hceq : c = "" := by simpa using heq
          exact empty_not_code (hceq ▸ hc)
        | some d =>
          rw [hcode] at heq
          simp only [Option.getD_some] at heq
          exact hx (by rw [hcode, heq])
      rw [if_neg hne]
  · rw [if_neg hmem]

theorem dget_foldl_fullStep_absent (c : String) (hc : c ∈ LIASSE_CODES_keys)
    (l : List Liasse) (hno : ∀ x ∈ l, x.code ≠ some c) :
    ∀ acc, dget (l.foldl fullStep acc) c = dget acc c := by
  induction l with
  | nil => intro acc; rfl
  | cons x xs ih =>
    intro acc
    rw [List.foldl_cons]
    rw [ih (fun y hy => hno y (List.mem_cons_of_mem x hy))]
    exact dget_fullStep_of_ne c hc x (hno x (List.mem_cons_self x xs)) acc

theorem dget_foldl_fullStep_char (c : String) (hc : c ∈ LIASSE_CODES_keys) :
    ∀ (l : List Liasse),
      l.countP (fun x => decide (x.code = some c)) ≤ 1 →
      ∀ acc, dget (l.foldl fullStep acc) c =
        match l.find? (fun x => decide (x.code = some c)) with
        | some x =>
          match parseMetricValue x.m1 with
          | some n => some n
          | none => dget acc c
        | none => dget acc c := by
  intro l
  induction l with
  | nil =>
    intro _ acc
    rfl
  | cons x xs ih =>
    intro hcount acc
    rw [List.foldl_cons]
    by_cases hx : x.code = some c
    · have hfind : List.find? (fun y => decide (y.code = some c)) (x :: xs) = some x :=
        List.find?_cons_of_pos _ (by simpa using hx)
      rw [hfind]
      dsimp only
      have hzero : xs.countP (fun y => decide (y.code = some c)) = 0 := by
        rw [List.countP_cons] at hcount
        simp only [decide_eq_true_eq, hx, if_pos] at hcount
        omega
      have hnoxs : ∀ y ∈ xs, y.code ≠ some c := by
        intro y hy
        have := List.countP_eq_zero.mp hzero y hy
        simpa using this
      rw [dget_foldl_fullStep_absent c hc xs hnoxs]
      unfold fullStep
      have hget : x.code.getD "" = c := by rw [hx]; rfl
      rw [hget, if_pos hc]
      cases hp : parseMetricValue x.m1 with
      | none => rfl
      | some n =>
        dsimp only
        rw [dget_dinsert, if_pos rfl]
    · have hfind : List.find? (fun y => decide (y.code = some c)) (x :: xs) =
          List.find? (fun y => decide (y.code = some c)) xs :=
        List.find?_cons_of_neg _ (by simpa using hx)
      rw [hfind]
      have hcount2 : xs.countP (fun y => decide (y.code = some c)) ≤ 1 := by
        rw [List.countP_cons] at hcount
        omega
      rw [ih hcount2 (fullStep acc x), dget_fullStep_of_ne c hc x hx acc]

theorem dget_convStep_of_ne (c : String) (x : Liasse) (hx : x.code ≠ some c)
    (acc : List (String × MetricPair)) :
    dget (convStep acc x) c = dget acc c := by
  unfold convStep
  cases hcode : x.code with
  | none => rfl
  | some d =>
    dsimp only
    by_cases hmem : d ∈ LIASSE_CODES_keys
    · rw [if_pos hmem, dget_dinsert]
      have hne : c ≠ d := by
        intro heq
        exact hx (by rw [hcode, heq])
      rw [if_neg hne]
    · rw [if_neg hmem]

theorem dget_foldl_convStep_absent (c : String) (l : List Liasse)
    (hno : ∀ x ∈ l, x.code ≠ some c) :
    ∀ acc, dget (l.foldl convStep acc) c = dget acc c := by
  induction l with
  | nil => intro acc; rfl
  | cons x xs ih =>
    intro acc
    rw [List.foldl_cons]
    rw [ih (fun y hy => hno y (List.mem_cons_of_mem x hy))]
    exact dget_convStep_of_ne c x (hno x (List.mem_cons_self x xs)) acc

theorem dget_foldl_convStep_char (c : String) (hc : c ∈ LIASSE_CODES_keys) :
    ∀ (l : List Liasse),
      l.countP (fun x => decide (x.code = some c)) ≤ 1 →
      ∀ acc, dget (l.foldl convStep acc) c =
        match l.find? (fun x => decide (x.code = some c)) with
        | some x => some (⟨x.m1, x.m2⟩ : MetricPair)
        | none => dget acc c := by
  intro l
  induction l with
  | nil =>
    intro _ acc
    rfl
  | cons x xs ih =>
    intro hcount acc
    rw [List.foldl_cons]
    by_cases hx : x.code = some c
    · have hfind : List.find? (fun y => decide (y.code = some c)) (x :: xs) = some x :=
        List.find?_cons_of_pos _ (by simpa using hx)
      rw [hfind]
      dsimp only
      have hzero : xs.countP (fun y => decide (y.code = some c)) = 0 := by
        rw [List.countP_cons] at hcount
        simp only [decide_eq_true_eq, hx, if_pos] at hcount
        omega
      have hnoxs : ∀ y ∈ xs, y.code ≠ some c := by
        intro y hy
        have := List.countP_eq_zero.mp hzero y hy
        simpa using this
      rw [dget_foldl_convStep_absent c xs hnoxs]
      unfold convStep
      rw [hx]
      dsimp only
      rw [if_pos hc, dget_dinsert, if_pos rfl]
    · have hfind : List.find? (fun y => decide (y.code = some c)) (x :: xs) =
          List.find? (fun y => decide (y.code = some c)) xs :=
        List.find?_cons_of_neg _ (by simpa using hx)
      rw [hfind]
      have hcount2 : xs.countP (fun y => decide (y.code = some c)) ≤ 1 := by
        rw [List.countP_cons] at hcount
        omega
      rw [ih hcount2 (convStep acc x), dget_convStep_of_ne c x hx acc]

theorem dget_streamStep_of_ne (c : String) (kv : String × MetricPair) (h : kv.1 ≠ c)
    (acc : List (String × Int)) :
    dget (streamStep acc kv) c = dget acc c := by
  unfold streamStep
  cases hp : parseMetricValue kv.2.m1 with
  | none => rfl
  | some n =>
    dsimp only
    rw [dget_dinsert]
    have hne : c ≠ kv.1 := fun heq => h heq.symm
    rw [if_neg hne]

theorem dget_foldl_streamStep_absent (c : String) (ms : List (String × MetricPair))
    (hno : ∀ kv ∈ ms, kv.1 ≠ c) :
    ∀ acc, dget (ms.foldl streamStep acc) c = dget acc c := by
  induction ms with
  | nil => intro acc; rfl
  | cons kv rest ih =>
    intro acc
    rw [List.foldl_cons]
    rw [ih (fun y hy => hno y (List.mem_cons_of_mem kv hy))]
    exact dget_streamStep_of_ne c kv (hno kv (List.mem_cons_self kv rest)) acc

theorem dget_foldl_streamStep_char (c : String) :
    ∀ ms : List (String × MetricPair),
      ms.Pairwise (fun a b => a.1 ≠ b.1) →
      ∀ acc, dget (ms.foldl streamStep acc) c =
        match dget ms c with
        | some pair =>
          match parseMetricValue pair.m1 with
          | some n => some n
          | none => dget acc c
        | none => dget acc c := by
  intro ms
  induction ms with
  | nil =>
    intro _ acc
    rfl
  | cons kv rest ih =>
    intro hnodup acc
    rcases List.pairwise_cons.mp hnodup with ⟨hkv, hrest⟩
    rw [List.foldl_cons, dget_cons]
    by_cases hc : kv.1 = c
    · rw [if_pos hc]
      dsimp only
      have hno : ∀ y ∈ rest, y.1 ≠ c := by
        intro y hy heq
        exact hkv y hy (hc.trans heq.symm)
      rw [dget_foldl_streamStep_absent c rest hno]
      unfold streamStep
      cases hp : parseMetricValue kv.2.m1 with
      | none => rfl
      | some n =>
        dsimp only
        rw [dget_dinsert]
        have : c = kv.1 := hc.symm
        rw [if_pos this]
    · rw [if_neg hc]
      rw [ih hrest (streamStep acc kv)]
      rw [dget_streamStep_of_ne c kv hc acc]

theorem nodupKeys_dinsert {α : Type} (k : String) (v : α) (d : List (String × α))
    (h : d.Pairwise (fun a b => a.1 ≠ b.1)) :
    (dinsert k v d).Pairwise (fun a b => a.1 ≠ b.1) := by
  unfold dinsert
  by_cases hmem : d.any (fun kv => decide (kv.1 = k))
  · rw [if_pos hmem]
    have hkey : ∀ kv : String × α, ((if kv.1 = k then (k, v) else kv)).1 = kv.1 := by
      intro kv
      by_cases hk : kv.1 = k
      · rw [if_pos hk, hk]
      · rw [if_neg hk]
    rw [List.pairwise_map]
    apply h.imp_of_mem
    intro a b _ _ hab
    rw [hkey a, hkey b]
    exact hab
  · rw [if_neg hmem]
    rw [List.pairwise_append]
    refine ⟨h, List.pairwise_singleton _ _, ?_⟩
    intro a ha b hb
    rw [List.mem_singleton] at hb
    subst hb
    simp only []
    intro heq
    rw [List.any_eq_true] at hmem
    exact hmem ⟨a, ha, by simpa using heq⟩

theorem nodupKeys_foldl_convStep :
    ∀ (l : List Liasse) (acc : List (String × MetricPair)),
      acc.Pairwise (fun a b => a.1 ≠ b.1) →
      (l.foldl convStep acc).Pairwise (fun a b => a.1 ≠ b.1) := by
  intro l
  induction l with
  | nil => intro acc h; exact h
  | cons x xs ih =>
    intro acc h
    rw [List.foldl_cons]
    apply ih
    unfold convStep
    cases x.code with
    | none => exact h
    | some d =>
      dsimp only
      by_cases hmem : d ∈ LIASSE_CODES_keys
      · rw [if_pos hmem]
        exact nodupKeys_dinsert d ⟨x.m1, x.m2⟩ acc h
      · rw [if_neg hmem]
        exact h

/-- For every list of liasse lines in which a six-code occurs at most
once, extracting the metric from the compact conversion equals extracting
it directly from the lines. -/
theorem metric_extraction_eq (l : List Liasse) (c : String) (hc : c ∈ LIASSE_CODES_keys)
    (hcount : l.countP (fun x => decide (x.code = some c)) ≤ 1) :
    dget ((l.foldl convStep []).foldl streamStep []) c = dget (l.foldl fullStep []) c := by
  have hnodup : (l.foldl convStep []).Pairwise (fun a b => a.1 ≠ b.1) :=
    nodupKeys_foldl_convStep l [] (List.Pairwise.nil)
  rw [dget_foldl_streamStep_char c (l.foldl convStep []) hnodup []]
  rw [dget_foldl_convStep_char c hc l hcount []]
  rw [dget_foldl_fullStep_char c hc l hcount []]
  cases List.find? (fun x => decide (x.code = some c)) l with
  | none => rfl
  | some x => rfl

/-- Claim C4, counterexample: the compact conversion drops the
denomination (and reads the top-level dateCloture instead of the identite
closing date), so a full record carrying denomination ACME extracts
differently through the two paths: the full path yields ACME, the
conversion path yields the empty string. -/
theorem C4_extraction_counterexample :
    (extract_financial_data sampleFullBilan).denomination = "ACME" ∧
    (extract_financial_data (extract_key_metrics_one sampleFullBilan)).denomination = "" ∧
    extract_financial_data (extract_key_metrics_one sampleFullBilan) ≠
      extract_financial_data sampleFullBilan := by
  refine ⟨by decide, by decide, by decide⟩

/-- Claim C4, amended: for a full-format record (no metrics key) whose six
key codes each occur at most once among its liasse lines, extraction from
the record and extraction from its compact conversion agree on all six
metric values and on the filing date; the identity fields however differ
in general: the conversion path returns an empty denomination and the
top-level dateCloture, while the full path returns the record
denomination and the identite dateClotureExercice. -/
theorem C4_extraction_amended (b : Bilan) (hm : b.metrics = none)
    (hcount : ∀ c ∈ LIASSE_CODES_keys,
      (liasseLines b).countP (fun x => decide (x.code = some c)) ≤ 1) :
    (extract_financial_data (extract_key_metrics_one b)).chiffre_affaires =
      (extract_financial_data b).chiffre_affaires ∧
    (extract_financial_data (extract_key_metrics_one b)).resultat_net =
      (extract_financial_data b).resultat_net ∧
    (extract_financial_data (extract_key_metrics_one b)).resultat_exploitation =
      (extract_financial_data b).resultat_exploitation ∧
    (extract_financial_data (extract_key_metrics_one b)).total_actif =
      (extract_financial_data b).total_actif ∧
    (extract_financial_data (extract_key_metrics_one b)).capitaux_propres =
      (extract_financial_data b).capitaux_propres ∧
    (extract_financial_data (extract_key_metrics_one b)).effectif =
      (extract_financial_data b).effectif ∧
    (extract_financial_data (extract_key_metrics_one b)).date_depot =
      (extract_financial_data b).date_depot ∧
    (extract_financial_data (extract_key_metrics_one b)).date_cloture =
      b.dateCloture.getD "" ∧
    (extract_financial_data b).date_cloture = b.dateClotureExercice.getD "" ∧
    (extract_financial_data (extract_key_metrics_one b)).denomination = "" ∧
    (extract_financial_data b).denomination = b.denomination.getD "" := by
  have hfull : extract_financial_data b = extractFinancialFull b := by
    unfold extract_financial_data
    rw [hm]
  have hstream : extract_financial_data (extract_key_metrics_one b) =
      extractFinancialStreaming (extract_key_metrics_one b)
        ((liasseLines b).foldl convStep []) := by
    unfold extract_financial_data extract_key_metrics_one
    dsimp only
    rw [foldl_pages]
    rfl
  have hc6 : ∀ c ∈ LIASSE_CODES_keys,
      dget (((liasseLines b).foldl convStep []).foldl streamStep []) c =
      dget (b.pages.foldl (fun acc page => page.liasses.foldl fullStep acc) []) c := by
    intro c hc
    rw [foldl_pages]
    exact metric_extraction_eq (liasseLines b) c hc (hcount c hc)
  refine ⟨?_, ?_, ?_, ?_, ?_, ?_, ?_, ?_, ?_, ?_, ?_⟩
  · rw [hstream, hfull]
    exact hc6 ("FA") (by decide)
  · rw [hstream, hfull]
    exact hc6 ("HN") (by decide)
  · rw [hstream, hfull]
    exact hc6 ("GC") (by decide)
  · rw [hstream, hfull]
    exact hc6 ("BJ") (by decide)
  · rw [hstream, hfull]
    exact hc6 ("DL") (by decide)
  · rw [hstream, hfull]
    exact hc6 ("HY") (by decide)
  · rw [hstream, hfull]
    rfl
  · rw [hstream]
    rfl
  · rw [hfull]
    rfl
  · rw [hstream]
    rfl
  · rw [hfull]
    rfl

/-- Witness for C4: at the sample record the turnover extracted through
the conversion equals the turnover extracted directly, by the amended
theorem. -/
theorem C4_extraction_witness :
    (extract_financial_data (extract_key_metrics_one sampleFullBilan)).chiffre_affaires =
      (extract_financial_data sampleFullBilan).chiffre_affaires :=
  (C4_extraction_amended sampleFullBilan rfl (by decide)).1

/-! ## C1 : batch enrichment result map -/

theorem dget_mem {α : Type} (d : List (String × α)) (k : String) (v : α)
    (h : dget d k = some v) : (k, v) ∈ d := by
  unfold dget at h
  cases hfind : List.find? (fun kv => decide (kv.1 = k)) d with
  | none =>
    rw [hfind] at h
    cases h
  | some kv =>
    rw [hfind] at h
    have hmem := List.mem_of_find?_eq_some hfind
    have hp := List.find?_some hfind
    simp only [decide_eq_true_eq] at hp
    have h2 : kv.2 = v := by simpa using h
    have hkv : kv = (k, v) := by
      rw [← hp, ← h2]
    rw [← hkv]
    exact hmem

theorem mem_dget_of_nodup {α : Type} (d : List (String × α)) (k : String) (v : α)
    (hnodup : d.Pairwise (fun a b => a.1 ≠ b.1)) (h : (k, v) ∈ d) :
    dget d k = some v := by
  induction d with
  | nil => cases h
  | cons kv rest ih =>
    rcases List.pairwise_cons.mp hnodup with ⟨hkv, hrest⟩
    rw [dget_cons]
    rcases List.mem_cons.mp h with heq | hmem
    · rw [← heq]
      simp
    · have hne : kv.1 ≠ k := by
        have := hkv (k, v) hmem
        simpa using this
      rw [if_neg hne]
      exact ih hrest hmem

theorem groupStep_dget (ranges : List RangeEntry) (grouped : List (String × List String))
    (siren f : String) :
    dget (groupStep ranges grouped siren) f =
      match find_file_for_siren siren ranges with
      | some fx =>
        if f = fx then some ((dget grouped fx).getD [] ++ [siren]) else dget grouped f
      | none => dget grouped f := by
  unfold groupStep
  cases hfind : find_file_for_siren siren ranges with
  | none => rfl
  | some fx =>
    dsimp only
    cases hex : dget grouped fx with
    | some existing =>
      rw [dget_dinsert]
      by_cases hf : f = fx
      · simp [hf, hex]
      · rw [if_neg hf, if_neg hf]
    | none =>
      rw [dget_dinsert]
      by_cases hf : f = fx
      · simp [hf, hex]
      · rw [if_neg hf, if_neg hf]

theorem group_fold_sound (ranges : List RangeEntry) :
    ∀ (sirens : List String) (acc : List (String × List String)),
      (∀ f gs, dget acc f = some gs → ∀ s ∈ gs, find_file_for_siren s ranges = some f) →
      ∀ f gs, dget (sirens.foldl (groupStep ranges) acc) f = some gs →
        ∀ s ∈ gs, find_file_for_siren s ranges = some f := by
  intro sirens
  induction sirens with
  | nil =>
    intro acc hacc f gs h
    exact hacc f gs h
  | cons x xs ih =>
    intro acc hacc
    rw [List.foldl_cons]
    apply ih
    intro f gs hget s hs
    rw [groupStep_dget] at hget
    cases hfind : find_file_for_siren x ranges with
    | none =>
      rw [hfind] at hget
      exact hacc f gs hget s hs
    | some fx =>
      rw [hfind] at hget
      dsimp only at hget
      by_cases hf : f = fx
      · rw [if_pos hf] at hget
        have hgs : gs = (dget acc fx).getD [] ++ [x] := by
          cases hget
          rfl
        subst hgs
        rcases List.mem_append.mp hs with hs1 | hs2
        · cases hex : dget acc fx with
          | none =>
            rw [hex] at hs1
            cases hs1
          | some existing =>
            rw [hex] at hs1
            exact hf ▸ hacc fx existing hex s hs1
        · rw [List.mem_singleton] at hs2
          rw [hs2, hf]
          exact hfind
      · rw [if_neg hf] at hget
        exact hacc f gs hget s hs

theorem group_fold_complete (ranges : List RangeEntry) :
    ∀ (sirens : List String) (acc : List (String × List String)) (s f : String),
      find_file_for_siren s ranges = some f →
      (s ∈ sirens ∨ ∃ gs, dget acc f = some gs ∧ s ∈ gs) →
      ∃ gs, dget (sirens.foldl (groupStep ranges) acc) f = some gs ∧ s ∈ gs := by
  intro sirens
  induction sirens with
  | nil =>
    intro acc s f hfind h
    rcases h with h | h
    · cases h
    · exact h
  | cons x xs ih =>
    intro acc s f hfind h
    rw [List.foldl_cons]
    apply ih (groupStep ranges acc x) s f hfind
    rcases h with h | h
    · rcases List.mem_cons.mp h with hx | hxs
      · right
        subst hx
        refine ⟨(dget acc f).getD [] ++ [s], ?_, by simp⟩
        rw [groupStep_dget, hfind]
        dsimp only
        rw [if_pos rfl]
      · left
        exact hxs
    · right
      obtain ⟨gs, hget, hs⟩ := h
      rw [groupStep_dget]
      cases hfx : find_file_for_siren x ranges with
      | none => exact ⟨gs, hget, hs⟩
      | some fx =>
        dsimp only
        by_cases hf : f = fx
        · refine ⟨(dget acc fx).getD [] ++ [x], by rw [if_pos hf], ?_⟩
          rw [← hf, hget]
          exact List.mem_append_left _ hs
        · rw [if_neg hf]
          exact ⟨gs, hget, hs⟩

theorem groupStep_nodup (ranges : List RangeEntry) (grouped : List (String × List String))
    (siren : String) (h : grouped.Pairwise (fun a b => a.1 ≠ b.1)) :
    (groupStep ranges grouped siren).Pairwise (fun a b => a.1 ≠ b.1) := by
  unfold groupStep
  cases find_file_for_siren siren ranges with
  | none => exact h
  | some fx =>
    dsimp only
    cases dget grouped fx with
    | some existing => exact nodupKeys_dinsert _ _ _ h
    | none => exact nodupKeys_dinsert _ _ _ h

theorem group_fold_nodup (ranges : List RangeEntry) :
    ∀ (sirens : List String) (acc : List (String × List String)),
      acc.Pairwise (fun a b => a.1 ≠ b.1) →
      (sirens.foldl (groupStep ranges) acc).Pairwise (fun a b => a.1 ≠ b.1) := by
  intro sirens
  induction sirens with
  | nil => intro acc h; exact h
  | cons x xs ih =>
    intro acc h
    rw [List.foldl_cons]
    exact ih _ (groupStep_nodup ranges acc x h)

theorem dget_errfold_not_mem :
    ∀ (gs : List String) (m0 : List (String × EnrichResult)) (s : String), s ∉ gs →
      dget (gs.foldl (fun acc x => dinsert x downloadErrorResult acc) m0) s = dget m0 s := by
  intro gs
  induction gs with
  | nil => intro m0 s _; rfl
  | cons x xs ih =>
    intro m0 s hs
    rw [List.foldl_cons]
    rw [ih _ s (fun hmem => hs (List.mem_cons_of_mem x hmem))]
    rw [dget_dinsert]
    have hne : s ≠ x := fun heq => hs (heq ▸ List.mem_cons_self x xs)
    rw [if_neg hne]

theorem dget_errfold_mem :
    ∀ (gs : List String) (m0 : List (String × EnrichResult)) (s : String), s ∈ gs →
      dget (gs.foldl (fun acc x => dinsert x downloadErrorResult acc) m0) s =
        some downloadErrorResult := by
  intro gs
  induction gs with
  | nil =>
    intro m0 s hs
    cases hs
  | cons x xs ih =>
    intro m0 s hs
    rw [List.foldl_cons]
    by_cases hxs : s ∈ xs
    · exact ih _ s hxs
    · have hsx : s = x := by
        rcases List.mem_cons.mp hs with h | h
        · exact h
        · exact absurd h hxs
      rw [dget_errfold_not_mem xs _ s hxs, dget_dinsert, if_pos hsx]

theorem nodup_errfold :
    ∀ (gs : List String) (m0 : List (String × EnrichResult)),
      m0.Pairwise (fun a b => a.1 ≠ b.1) →
      (gs.foldl (fun acc x => dinsert x downloadErrorResult acc) m0).Pairwise
        (fun a b => a.1 ≠ b.1) := by
  intro gs
  induction gs with
  | nil => intro m0 h; exact h
  | cons x xs ih =>
    intro m0 h
    rw [List.foldl_cons]
    exact ih _ (nodupKeys_dinsert _ _ _ h)

theorem dget_procfold_not_mem (data : List Bilan) (maxb : Nat) :
    ∀ (gs : List String) (m0 : List (String × EnrichResult)) (s : String), s ∉ gs →
      dget (gs.foldl (fun m x =>
        match processOneSiren data x maxb with
        | some r => dinsert x r m
        | none => m) m0) s = dget m0 s := by
  intro gs
  induction gs with
  | nil => intro m0 s _; rfl
  | cons x xs ih =>
    intro m0 s hs
    rw [List.foldl_cons]
    rw [ih _ s (fun hmem => hs (List.mem_cons_of_mem x hmem))]
    cases hp : processOneSiren data x maxb with
    | none => rfl
    | some r =>
      dsimp only
      rw [dget_dinsert]
      have hne : s ≠ x := fun heq => hs (heq ▸ List.mem_cons_self x xs)
      rw [if_neg hne]

theorem dget_procfold_mem (data : List Bilan) (maxb : Nat) :
    ∀ (gs : List String) (m0 : List (String × EnrichResult)) (s : String), s ∈ gs →
      (∀ x ∈ gs, (processOneSiren data x maxb).isSome) →
      dget (gs.foldl (fun m x =>
        match processOneSiren data x maxb with
        | some r => dinsert x r m
        | none => m) m0) s = processOneSiren data s maxb := by
  intro gs
  induction gs with
  | nil =>
    intro m0 s hs
    cases hs
  | cons x xs ih =>
    intro m0 s hs hall
    rw [List.foldl_cons]
    by_cases hxs : s ∈ xs
    · exact ih _ s hxs (fun y hy => hall y (List.mem_cons_of_mem x hy))
    · have hsx : s = x := by
        rcases List.mem_cons.mp hs with h | h
        · exact h
        · exact absurd h hxs
      rw [dget_procfold_not_mem data maxb xs _ s hxs]
      obtain ⟨r, hr⟩ := Option.isSome_iff_exists.mp (hall x (List.mem_cons_self x xs))
      rw [hr]
      dsimp only
      rw [dget_dinsert, if_pos hsx, hsx, hr]

theorem nodup_procfold (data : List Bilan) (maxb : Nat) :
    ∀ (gs : List String) (m0 : List (String × EnrichResult)),
      m0.Pairwise (fun a b => a.1 ≠ b.1) →
      (gs.foldl (fun m x =>
        match processOneSiren data x maxb with
        | some r => dinsert x r m
        | none => m) m0).Pairwise (fun a b => a.1 ≠ b.1) := by
  intro gs
  induction gs with
  | nil => intro m0 h; exact h
  | cons x xs ih =>
    intro m0 h
    rw [List.foldl_cons]
    apply ih
    cases processOneSiren data x maxb with
    | none => exact h
    | some r => exact nodupKeys_dinsert _ _ _ h

theorem bind_fold_none (data : List Bilan) (maxb : Nat) :
    ∀ gs : List String,
      gs.foldl (fun acc s => acc.bind (fun m =>
        (processOneSiren data s maxb).map (fun r => dinsert s r m))) none = none := by
  intro gs
  induction gs with
  | nil => rfl
  | cons x xs ih =>
    rw [List.foldl_cons]
    exact ih

theorem bind_fold_some_inv (data : List Bilan) (maxb : Nat) :
    ∀ (gs : List String) (m0 results : List (String × EnrichResult)),
      gs.foldl (fun acc s => acc.bind (fun m =>
        (processOneSiren data s maxb).map (fun r => dinsert s r m))) (some m0) =
        some results →
      (∀ x ∈ gs, (processOneSiren data x maxb).isSome) ∧
      results = gs.foldl (fun m s =>
        match processOneSiren data s maxb with
        | some r => dinsert s r m
        | none => m) m0 := by
  intro gs
  induction gs with
  | nil =>
    intro m0 results h
    refine ⟨fun x hx => absurd hx (List.not_mem_nil x), ?_⟩
    cases h
    rfl
  | cons x xs ih =>
    intro m0 results h
    rw [List.foldl_cons] at h
    cases hp : processOneSiren data x maxb with
    | none =>
      rw [hp] at h
      simp only [Option.some_bind, Option.map_none'] at h
      rw [bind_fold_none data maxb xs] at h
      cases h
    | some r =>
      rw [hp] at h
      simp only [Option.some_bind, Option.map_some'] at h
      obtain ⟨hall, hres⟩ := ih (dinsert x r m0) results h
      refine ⟨?_, ?_⟩
      · intro y hy
        rcases List.mem_cons.mp hy with hyx | hyxs
        · rw [hyx, hp]
          rfl
        · exact hall y hyxs
      · rw [hres, List.foldl_cons, hp]

theorem findFileLoop_some_mem (ranges : List RangeEntry) (s : String) :
    ∀ (fuel left right : Nat) (f : String),
      findFileLoop ranges s fuel left right = some f → ∃ r ∈ ranges, r.file = f := by
  intro fuel
  induction fuel with
  | zero =>
    intro left right f h
    cases h
  | succ n ih =>
    intro left right f h
    rw [findFileLoop] at h
    by_cases hc : left ≤ right ∧ right < ranges.length
    · rw [if_pos hc] at h
      cases hget : ranges[(left + right) / 2]? with
      | none =>
        rw [hget] at h
        cases h
      | some r =>
        rw [hget] at h
        dsimp only at h
        by_cases hin : strLe r.siren_min s ∧ strLe s r.siren_max
        · rw [if_pos hin] at h
          obtain ⟨hlt, hre⟩ := List.getElem?_eq_some.mp hget
          exact ⟨r, hre ▸ List.getElem_mem hlt, Option.some.inj h⟩
        · rw [if_neg hin] at h
          by_cases hlt : strLt s r.siren_min
          · rw [if_pos hlt] at h
            by_cases hz : (left + right) / 2 = 0
            · rw [if_pos hz] at h
              cases h
            · rw [if_neg hz] at h
              exact ih _ _ _ h
          · rw [if_neg hlt] at h
            exact ih _ _ _ h
    · rw [if_neg hc] at h
      cases h

theorem find_file_some_mem (siren : String) (ranges : List RangeEntry) (f : String)
    (h : find_file_for_siren siren ranges = some f) : ∃ r ∈ ranges, r.file = f := by
  unfold find_file_for_siren at h
  by_cases he : ranges.isEmpty = true
  · rw [if_pos he] at h
    cases h
  · rw [if_neg he] at h
    exact findFileLoop_some_mem ranges (pyZfill siren 9) _ _ _ f h

theorem not_key_of_dget_none {α : Type} (d : List (String × α)) (s : String)
    (h : dget d s = none) : ∀ kv ∈ d, kv.1 ≠ s := by
  intro kv hkv
  unfold dget at h
  cases hfind : List.find? (fun kv => decide (kv.1 = s)) d with
  | some w =>
    rw [hfind] at h
    cases h
  | none =>
    have := List.find?_eq_none.mp hfind kv hkv
    simpa using this

theorem dget_update_not_key {α : Type} :
    ∀ (results m0 : List (String × α)) (s : String),
      (∀ kv ∈ results, kv.1 ≠ s) →
      dget (results.foldl (fun acc kv => dinsert kv.1 kv.2 acc) m0) s = dget m0 s := by
  intro results
  induction results with
  | nil => intro m0 s _; rfl
  | cons kv rest ih =>
    intro m0 s hall
    rw [List.foldl_cons]
    rw [ih _ s (fun x hx => hall x (List.mem_cons_of_mem kv hx))]
    rw [dget_dinsert]
    have hne : s ≠ kv.1 := fun heq => hall kv (List.mem_cons_self kv rest) heq.symm
    rw [if_neg hne]

theorem dget_update_key {α : Type} :
    ∀ (results m0 : List (String × α)) (s : String) (v : α),
      results.Pairwise (fun a b => a.1 ≠ b.1) →
      dget results s = some v →
      dget (results.foldl (fun acc kv => dinsert kv.1 kv.2 acc) m0) s = some v := by
  intro results
  induction results with
  | nil =>
    intro m0 s v _ h
    cases h
  | cons kv rest ih =>
    intro m0 s v hnodup h
    rcases List.pairwise_cons.mp hnodup with ⟨hkv, hrest⟩
    rw [dget_cons] at h
    rw [List.foldl_cons]
    by_cases hk : kv.1 = s
    · rw [if_pos hk] at h
      have hv : kv.2 = v := Option.some.inj h
      have hnokey : ∀ x ∈ rest, x.1 ≠ s := fun x hx => hk ▸ (hkv x hx).symm
      rw [dget_update_not_key rest _ s hnokey]
      rw [dget_dinsert, if_pos hk.symm, hv]
    · rw [if_neg hk] at h
      exact ih _ s v hrest h

theorem mem_dinsert {α : Type} (k : String) (v : α) (d : List (String × α))
    (kv : String × α) (h : kv ∈ dinsert k v d) : kv = (k, v) ∨ kv ∈ d := by
  unfold dinsert at h
  by_cases hmem : d.any (fun x => decide (x.1 = k)) = true
  · rw [if_pos hmem] at h
    rcases List.mem_map.mp h with ⟨x, hx, hxe⟩
    by_cases hxk : x.1 = k
    · rw [if_pos hxk] at hxe
      exact Or.inl hxe.symm
    · rw [if_neg hxk] at hxe
      exact Or.inr (hxe ▸ hx)
  · rw [if_neg hmem] at h
    rcases List.mem_append.mp h with h | h
    · exact Or.inr h
    · exact Or.inl (List.mem_singleton.mp h)

theorem groupStep_nonempty (ranges : List RangeEntry)
    (grouped : List (String × List String)) (siren : String)
    (h : ∀ fg ∈ grouped, fg.2 ≠ []) :
    ∀ fg ∈ groupStep ranges grouped siren, fg.2 ≠ [] := by
  intro fg hfg
  unfold groupStep at hfg
  cases hfind : find_file_for_siren siren ranges with
  | none =>
    rw [hfind] at hfg
    exact h fg hfg
  | some fx =>
    rw [hfind] at hfg
    dsimp only at hfg
    cases hd : dget grouped fx with
    | some existing =>
      rw [hd] at hfg
      dsimp only at hfg
      rcases mem_dinsert _ _ _ fg hfg with heq | hmem
      · rw [heq]
        simp
      · exact h fg hmem
    | none =>
      rw [hd] at hfg
      dsimp only at hfg
      rcases mem_dinsert _ _ _ fg hfg with heq | hmem
      · rw [heq]
        simp
      · exact h fg hmem

theorem group_fold_nonempty (ranges : List RangeEntry) :
    ∀ (sirens : List String) (acc : List (String × List String)),
      (∀ fg ∈ acc, fg.2 ≠ []) →
      ∀ fg ∈ sirens.foldl (groupStep ranges) acc, fg.2 ≠ [] := by
  intro sirens
  induction sirens with
  | nil => intro acc h; exact h
  | cons x xs ih =>
    intro acc h
    rw [List.foldl_cons]
    exact ih _ (groupStep_nonempty ranges acc x h)

theorem process_batch_fst_inv (remote : String → Option (List Bilan)) (cache : Cache)
    (f : String) (gs : List String) (maxb : Nat) (cl : Bool)
    (results : List (String × EnrichResult))
    (h : (process_batch remote cache f gs maxb cl).1 = some results) :
    results = gs.foldl (fun acc s => dinsert s downloadErrorResult acc) [] ∨
    ∃ data : List Bilan, (∀ x ∈ gs, (processOneSiren data x maxb).isSome) ∧
      results = gs.foldl (fun m s =>
        match processOneSiren data s maxb with
        | some r => dinsert s r m
        | none => m) [] := by
  unfold process_batch at h
  cases hnum : shardFileNum f with
  | none =>
    rw [hnum] at h
    cases h
  | some num =>
    rw [hnum] at h
    dsimp only at h
    cases hdl : download_json_from_ftp remote cache f with
    | mk dl cacheA =>
      rw [hdl] at h
      cases dl with
      | none =>
        dsimp only at h
        exact Or.inl (Option.some.inj h).symm
      | some data =>
        dsimp only at h
        by_cases hemp : data.isEmpty = true
        · rw [if_pos hemp] at h
          exact Or.inl (Option.some.inj h).symm
        · rw [if_neg hemp] at h
          cases hfold : gs.foldl (fun acc s => acc.bind (fun m =>
              (processOneSiren data s maxb).map (fun r => dinsert s r m))) (some []) with
          | none =>
            rw [hfold] at h
            cases h
          | some res =>
            rw [hfold] at h
            dsimp only at h
            obtain ⟨hall, hres⟩ := bind_fold_some_inv data maxb gs [] res hfold
            exact Or.inr ⟨data, hall, (Option.some.inj h) ▸ hres⟩

theorem process_batch_fst_isSome (remote : String → Option (List Bilan)) (cache : Cache)
    (f : String) (gs : List String) (maxb : Nat) (cl : Bool)
    (hf : (shardFileNum f).isSome) (hmaxb : 1 ≤ maxb) :
    (process_batch remote cache f gs maxb cl).1.isSome := by
  obtain ⟨num, hnum⟩ := Option.isSome_iff_exists.mp hf
  unfold process_batch
  rw [hnum]
  dsimp only
  cases hdl : download_json_from_ftp remote cache f with
  | mk dl cacheA =>
    cases dl with
    | none => rfl
    | some data =>
      dsimp only
      by_cases hemp : data.isEmpty = true
      · rw [if_pos hemp]
        rfl
      · rw [if_neg hemp]
        rw [foldl_bind_some data maxb hmaxb gs []]
        rfl

theorem processOneSiren_pred (data : List Bilan) (s : String) (maxb : Nat)
    (r : EnrichResult) (h : processOneSiren data s maxb = some r) :
    r.success = true ∨ r.error.isSome := by
  cases hfil : data.filter (fun b => decide (b.siren = some (pyZfill s 9))) with
  | nil =>
    simp only [processOneSiren, hfil] at h
    right
    rw [← Option.some.inj h]
    rfl
  | cons b bs =>
    simp only [processOneSiren, hfil] at h
    cases hs : (sortDescBy (fun x => x.dateCloture.getD "") (b :: bs)).take maxb with
    | nil =>
      rw [hs] at h
      cases h
    | cons y ys =>
      rw [hs] at h
      dsimp only at h
      left
      rw [← Option.some.inj h]

theorem enrichStep_dget_not_mem (remote : String → Option (List Bilan)) (maxb : Nat)
    (st : List (String × EnrichResult) × Cache) (g : String × List String) (s : String)
    (hs : s ∉ g.2) :
    dget (enrichStep remote maxb st g).1 s = dget st.1 s := by
  unfold enrichStep
  cases hpb : process_batch remote st.2 g.1 g.2 maxb true with
  | mk resOpt c1 =>
    cases resOpt with
    | none => rfl
    | some results =>
      dsimp only
      have hfst : (process_batch remote st.2 g.1 g.2 maxb true).1 = some results := by
        rw [hpb]
      rcases process_batch_fst_inv remote st.2 g.1 g.2 maxb true results hfst with
        herr | ⟨data, _, hproc⟩
      · have hnone : dget results s = none := by
          rw [herr, dget_errfold_not_mem g.2 [] s hs]
          rfl
        exact dget_update_not_key results st.1 s (not_key_of_dget_none results s hnone)
      · have hnone : dget results s = none := by
          rw [hproc, dget_procfold_not_mem data maxb g.2 [] s hs]
          rfl
        exact dget_update_not_key results st.1 s (not_key_of_dget_none results s hnone)

theorem enrichStep_dget_mem (remote : String → Option (List Bilan)) (maxb : Nat)
    (st : List (String × EnrichResult) × Cache) (g : String × List String) (s : String)
    (hmaxb : 1 ≤ maxb) (hfile : (shardFileNum g.1).isSome) (hs : s ∈ g.2) :
    ∃ r, dget (enrichStep remote maxb st g).1 s = some r ∧
      (r.success = true ∨ r.error.isSome) := by
  unfold enrichStep
  cases hpb : process_batch remote st.2 g.1 g.2 maxb true with
  | mk resOpt c1 =>
    cases resOpt with
    | none =>
      have hsome := process_batch_fst_isSome remote st.2 g.1 g.2 maxb true hfile hmaxb
      rw [hpb] at hsome
      simp at hsome
    | some results =>
      dsimp only
      have hfst : (process_batch remote st.2 g.1 g.2 maxb true).1 = some results := by
        rw [hpb]
      rcases process_batch_fst_inv remote st.2 g.1 g.2 maxb true results hfst with
        herr | ⟨data, hall, hproc⟩
      · refine ⟨downloadErrorResult, ?_, Or.inr (by decide)⟩
        have hget : dget results s = some downloadErrorResult := by
          rw [herr]
          exact dget_errfold_mem g.2 [] s hs
        have hnodup : results.Pairwise (fun a b => a.1 ≠ b.1) := by
          rw [herr]
          exact nodup_errfold g.2 [] List.Pairwise.nil
        exact dget_update_key results st.1 s downloadErrorResult hnodup hget
      · obtain ⟨r, hr⟩ := Option.isSome_iff_exists.mp (hall s hs)
        refine ⟨r, ?_, processOneSiren_pred data s maxb r hr⟩
        have hget : dget results s = some r := by
          rw [hproc, dget_procfold_mem data maxb g.2 [] s hs hall, hr]
        have hnodup : results.Pairwise (fun a b => a.1 ≠ b.1) := by
          rw [hproc]
          exact nodup_procfold data maxb g.2 [] List.Pairwise.nil
        exact dget_update_key results st.1 s r hnodup hget

theorem enrich_fold_none (remote : String → Option (List Bilan)) (maxb : Nat) :
    ∀ (grouped : List (String × List String)) (st : List (String × EnrichResult) × Cache)
      (s : String), (∀ fg ∈ grouped, s ∉ fg.2) →
      dget (grouped.foldl (enrichStep remote maxb) st).1 s = dget st.1 s := by
  intro grouped
  induction grouped with
  | nil => intro st s _; rfl
  | cons g rest ih =>
    intro st s hall
    rw [List.foldl_cons]
    rw [ih _ s (fun fg hfg => hall fg (List.mem_cons_of_mem g hfg))]
    exact enrichStep_dget_not_mem remote maxb st g s (hall g (List.mem_cons_self g rest))

theorem enrich_fold_entry (remote : String → Option (List Bilan)) (maxb : Nat)
    (hmaxb : 1 ≤ maxb) :
    ∀ (grouped : List (String × List String)) (st : List (String × EnrichResult) × Cache)
      (s : String),
      (∀ fg ∈ grouped, (shardFileNum fg.1).isSome) →
      ((∃ fg ∈ grouped, s ∈ fg.2) ∨
        ∃ r, dget st.1 s = some r ∧ (r.success = true ∨ r.error.isSome)) →
      ∃ r, dget (grouped.foldl (enrichStep remote maxb) st).1 s = some r ∧
        (r.success = true ∨ r.error.isSome) := by
  intro grouped
  induction grouped with
  | nil =>
    intro st s _ h
    rcases h with ⟨fg, hfg, _⟩ | h
    · cases hfg
    · exact h
  | cons g rest ih =>
    intro st s hfiles h
    rw [List.foldl_cons]
    have hfilesrest : ∀ fg ∈ rest, (shardFileNum fg.1).isSome :=
      fun fg hfg => hfiles fg (List.mem_cons_of_mem g hfg)
    by_cases hsg : s ∈ g.2
    · exact ih _ s hfilesrest (Or.inr (enrichStep_dget_mem remote maxb st g s hmaxb
        (hfiles g (List.mem_cons_self g rest)) hsg))
    · rcases h with ⟨fg, hfg, hsfg⟩ | hst
      · rcases List.mem_cons.mp hfg with heq | hmem
        · exact absurd (heq ▸ hsfg) hsg
        · exact ih _ s hfilesrest (Or.inl ⟨fg, hmem, hsfg⟩)
      · apply ih _ s hfilesrest
        right
        rw [enrichStep_dget_not_mem remote maxb st g s hsg]
        exact hst

/-- Claim C1, counterexample: batch enrichment does not return an entry for
every requested identifier. On the two-shard index, identifier 999999999
maps to no shard and the returned map has no entry for it at all (dget is
none), while the mapped identifier 005880596 does receive a record; the
claim requires an explicit not-found record for 999999999, never a missing
entry. -/
theorem C1_batch_counterexample :
    find_file_for_siren ("999999999") sampleRanges = none ∧
    dget (enrich_batch_parallel (fun _ => none) ⟨[]⟩ sampleRanges
      [("999999999"), ("005880596")] 10).1 ("999999999") = none ∧
    dget (enrich_batch_parallel (fun _ => none) ⟨[]⟩ sampleRanges
      [("999999999"), ("005880596")] 10).1 ("005880596") = some downloadErrorResult := by
  decide

/-- Claim C1 (corrected): provided every indexed shard has a parseable file
number and max_bilans is at least 1, enrich_batch_parallel returns a map
whose entries cover exactly the identifiers that map to an indexed shard: a
requested identifier with no matching range has no entry in the returned
map (it is only reported on the console), and every requested identifier
with a matching range receives a record that is either a success or
carries an explicit error message. -/
theorem C1_batch_amended (remote : String → Option (List Bilan)) (cache : Cache)
    (ranges : List RangeEntry) (sirens : List String) (maxb : Nat)
    (hfiles : ∀ r ∈ ranges, (shardFileNum r.file).isSome)
    (hmaxb : 1 ≤ maxb) :
    (∀ s ∈ sirens, find_file_for_siren s ranges = none →
      dget (enrich_batch_parallel remote cache ranges sirens maxb).1 s = none) ∧
    (∀ s ∈ sirens, ∀ f, find_file_for_siren s ranges = some f →
      ∃ r, dget (enrich_batch_parallel remote cache ranges sirens maxb).1 s = some r ∧
        (r.success = true ∨ r.error.isSome)) := by
  have hnodup := group_fold_nodup ranges sirens [] List.Pairwise.nil
  have hne : ∀ fk fgs, (fk, fgs) ∈ sirens.foldl (groupStep ranges) [] →
      ∀ x ∈ fgs, find_file_for_siren x ranges = some fk := by
    intro fk fgs hfg x hx
    have hdg : dget (sirens.foldl (groupStep ranges) []) fk = some fgs :=
      mem_dget_of_nodup _ fk fgs hnodup hfg
    exact group_fold_sound ranges sirens []
      (fun f gs h => Option.noConfusion h) fk fgs hdg x hx
  constructor
  · intro s _ hnone
    simp only [enrich_batch_parallel]
    by_cases hemp : (group_sirens_by_rne_file ranges sirens).isEmpty = true
    · rw [if_pos hemp]
      rfl
    · rw [if_neg hemp]
      have hnot : ∀ fg ∈ group_sirens_by_rne_file ranges sirens, s ∉ fg.2 := by
        intro fg hfg hsfg
        obtain ⟨fk, fgs⟩ := fg
        have hfk := hne fk fgs hfg s hsfg
        rw [hnone] at hfk
        cases hfk
      rw [enrich_fold_none remote maxb (group_sirens_by_rne_file ranges sirens)
        ([], cache) s hnot]
      rfl
  · intro s hsin f hfind
    obtain ⟨gs, hdget, hsgs⟩ := group_fold_complete ranges sirens [] s f hfind (Or.inl hsin)
    simp only [enrich_batch_parallel]
    cases hlist : group_sirens_by_rne_file ranges sirens with
    | nil =>
      exfalso
      have h0 : dget (group_sirens_by_rne_file ranges sirens) f = some gs := hdget
      rw [hlist] at h0
      cases h0
    | cons g0 rest =>
      rw [if_neg (by simp)]
      have hf : ∀ fg ∈ g0 :: rest, (shardFileNum fg.1).isSome := by
        intro fg hfg
        obtain ⟨fk, fgs⟩ := fg
        rw [← hlist] at hfg
        have hfg2 : (fk, fgs) ∈ sirens.foldl (groupStep ranges) [] := hfg
        have hnonempty := group_fold_nonempty ranges sirens []
          (fun fg h => absurd h (List.not_mem_nil fg)) (fk, fgs) hfg2
        cases hgs : fgs with
        | nil => exact absurd (by rw [hgs] at hnonempty; exact hnonempty) (by simp)
        | cons x rest2 =>
          have hfk : find_file_for_siren x ranges = some fk := by
            apply hne fk fgs hfg2 x
            rw [hgs]
            exact List.mem_cons_self x rest2
          obtain ⟨rr, hrr, hfile⟩ := find_file_some_mem x ranges fk hfk
          exact hfile ▸ hfiles rr hrr
      have hmemf : (f, gs) ∈ g0 :: rest := by
        have h0 : dget (group_sirens_by_rne_file ranges sirens) f = some gs := hdget
        have h1 := dget_mem _ f gs h0
        rw [hlist] at h1
        exact h1
      exact enrich_fold_entry remote maxb hmaxb (g0 :: rest) ([], cache) s hf
        (Or.inl ⟨(f, gs), hmemf, hsgs⟩)

/-- Witness for C1 (corrected): on the two-shard index with every download
failing, the mapped identifier 005880596 receives an error record and the
unmapped identifier 999999999 receives no entry, by the amended theorem. -/
theorem C1_batch_witness :
    dget (enrich_batch_parallel (fun _ => none) ⟨[]⟩ sampleRanges
      [("999999999"), ("005880596")] 10).1 ("999999999") = none ∧
    ∃ r, dget (enrich_batch_parallel (fun _ => none) ⟨[]⟩ sampleRanges
      [("999999999"), ("005880596")] 10).1 ("005880596") = some r ∧
      (r.success = true ∨ r.error.isSome) :=
  have h := C1_batch_amended (fun _ => none) ⟨[]⟩ sampleRanges
    [("999999999"), ("005880596")] 10 (by decide) (by decide)
  ⟨h.1 ("999999999") (by decide) (by decide),
   h.2 ("005880596") (by decide) ("stock_000002.json") (by decide)⟩
